import Mathlib

/-!
Verification of the dbsg introspection-and-reconstruction pipeline.

This file shallowly embeds the core of the `dbsg` repository:
`dbsg/lib/configuration.py` (filter compiler), `dbsg/lib/introspection.py`
(row normalization, appendix overrides, metadata query builder, the
threaded introspection run) and `dbsg/lib/intermediate_representation.py`
(tree reconstruction), and proves properties of the embedding.

Conventions of the embedding:
* Python mutation is modelled by explicit state passing.
* Python exceptions (`ValueError` from tuple unpacking, `TypeError` and
  `IndexError` from the argument dispatch) are modelled with `Except`.
* Python `set` accumulation (insertion while dropping duplicates) is
  modelled by `setAdd` (first-insertion order; only emptiness and
  membership of the result are relied upon by theorems).
* Python `repr` of the plain identifier strings at hand wraps them in
  single quotes; `pyRepr` does the same (the quote is written `\x27`).
* Python `', '.join` is `pyJoin ", "`.
-/

namespace Dbsg

/-- Python `repr` of a plain string (no escaping needed for the identifier
strings this program builds): wrap in single quotes. -/
def pyRepr (s : String) : String := "\x27" ++ s ++ "\x27"

/-- Python `sep.join(xs)`. -/
def pyJoin (sep : String) : List String → String
  | [] => ""
  | [x] => x
  | x :: y :: rest => x ++ sep ++ pyJoin sep (y :: rest)

/-- Python `set.add`, modelled on lists with first-insertion order. -/
def setAdd (s : List String) (x : String) : List String :=
  if x ∈ s then s else s ++ [x]

/-- Python `str.upper` over the character list: the same ASCII case map as
`String.toUpper` (cf. `String.map_eq`), written structurally so that
concrete runs evaluate in the kernel. -/
def pyUpper (s : String) : String := ⟨s.data.map Char.toUpper⟩

/-- Python `str.lower` over the character list: the same ASCII case map as
`String.toLower`, written structurally. -/
def pyLower (s : String) : String := ⟨s.data.map Char.toLower⟩

/-- Python `str.split('.')` over the character list. -/
def splitDotChars : List Char → List (List Char)
  | [] => [[]]
  | c :: rest =>
    if c = '.' then [] :: splitDotChars rest
    else
      match splitDotChars rest with
      | [] => [[c]]
      | g :: gs => (c :: g) :: gs

/-- Python `o.split('.')`. -/
def pySplitDot (s : String) : List String :=
  (splitDotChars s.data).map fun cs => ⟨cs⟩

/-- Python `str.replace('..', '.')` over the character list: each
non-overlapping occurrence is replaced, scanning left to right. -/
def replaceDotDotChars : List Char → List Char
  | '.' :: '.' :: rest => '.' :: replaceDotDotChars rest
  | c :: rest => c :: replaceDotDotChars rest
  | [] => []

/-- Python `s.replace('..', '.')`. -/
def pyReplaceDotDot (s : String) : String := ⟨replaceDotDotChars s.data⟩

namespace Config

/-- `configuration.FQDN`: triple of schema, package (maybe blank), routine. -/
structure FQDN where
  schema : String
  package : String
  routine : String
deriving DecidableEq, Repr

/-- `FQDN.__init__(*args)`: uppercase all members; Python unpacking of the
argument tuple raises `ValueError` unless there are exactly three parts. -/
def mkFQDN : List String → Except String FQDN
  | [s, p, r] => .ok ⟨pyUpper s, pyUpper p, pyUpper r⟩
  | _ => .error "not enough or too many values to unpack (expected 3)"

/-- `FQDN.__str__`: join the members with dots, collapsing the double dot
left by a blank package. -/
def FQDN.str (f : FQDN) : String :=
  pyReplaceDotDot (f.schema ++ "." ++ f.package ++ "." ++ f.routine)

/-- `FQDN.__repr__`: Python `repr` of the string form. -/
def FQDN.reprPy (f : FQDN) : String := pyRepr f.str

/-- One step of `Schema.normalize`: split the specifier on `.`; if the first
segment is not the schema name, or there is a single segment, prepend the
schema name; if exactly two segments result, insert a blank package
segment at position 1. -/
def normalizeOne (name : String) (o : String) : List String :=
  match pySplitDot o with
  | [] => []
  | first :: restSegs =>
    let obj := if first ≠ name ∨ restSegs = [] then name :: first :: restSegs
               else first :: restSegs
    match obj with
    | [a, b] => [a, "", b]
    | l => l

/-- `Schema.normalize(name, objects)`. -/
def Schema.normalize (name : String) (objects : List String) : List (List String) :=
  objects.map (normalizeOne name)

/-- `configuration.IntrospectionRow` overridable fields, i.e. the
`IntrospectionAppendix.new` mapping: any subset of the row's fields with
replacement values (`setattr` on a matching row). -/
structure RowPatch where
  schema : Option String := none
  package : Option String := none
  is_package : Option Bool := none
  routine : Option String := none
  routine_type : Option String := none
  object_id : Option Int := none
  overload : Option Int := none
  subprogram_id : Option Int := none
  argument : Option String := none
  position : Option Int := none
  sequence : Option Int := none
  data_level : Option Int := none
  data_type : Option String := none
  custom_type_schema : Option (Option String) := none
  custom_type_package : Option (Option String) := none
  custom_type : Option (Option String) := none
  defaulted : Option Bool := none
  default_value : Option (Option String) := none
  in_out : Option String := none
deriving DecidableEq, Repr

/-- `configuration.IntrospectionAppendix`: a manual correction keyed by
ids, carrying the field replacements in `new`. -/
structure IntrospectionAppendix where
  comment : String
  object_id : Int
  subprogram_id : Int
  position : Option Int := none
  new : RowPatch
deriving DecidableEq, Repr

/-- Key of the `introspection_appendix` mapping: either
`(object_id, subprogram_id)` or `(object_id, subprogram_id, position)`. -/
inductive AppendixKey where
  | sub (object_id subprogram_id : Int)
  | arg (object_id subprogram_id position : Int)
deriving DecidableEq, Repr, BEq

/-- The `introspection_appendix` dict. -/
abbrev AppendixMap := List (AppendixKey × IntrospectionAppendix)

/-- Raw (pre-`__post_init__`) `configuration.Schema` constructor input. -/
structure SchemaIn where
  name : String
  no_package_name : String := ""
  introspection_appendix : AppendixMap := []
  exclude_packages : List String := []
  exclude_routines : List String := []
  include_routines : List String := []
deriving DecidableEq, Repr

/-- Compiled `configuration.Schema` after `__post_init__`. -/
structure Schema where
  name : String
  no_package_name : String
  introspection_appendix : AppendixMap
  exclude_packages : List String
  exclude_routines : List FQDN
  include_routines : List FQDN
  included_packages : String
  excluded_packages : String
  included_routines : String
  excluded_routines : String
  included_routines_no_pkg : String
  excluded_routines_no_pkg : String
deriving DecidableEq, Repr

/-- Accumulators of the include-routines loop in `Schema.__post_init__`. -/
structure IncludeAcc where
  include_routines : List FQDN := []
  included_packages : List String := []
  included_routines : List String := []
  included_routines_no_pkg : List String := []
deriving DecidableEq, Repr

/-- The include-routines loop of `Schema.__post_init__`: build an `FQDN`
from each normalized specifier; routines with a package feed the
`included_routines` list and the `included_packages` set, package-less
routines feed `included_routines_no_pkg`. -/
def includeLoop (acc : IncludeAcc) : List (List String) → Except String IncludeAcc
  | [] => .ok acc
  | routine :: rest =>
    match mkFQDN routine with
    | .error e => .error e
    | .ok fqdn =>
    let acc :=
      if fqdn.package ≠ "" then
        { acc with
          include_routines := acc.include_routines ++ [fqdn]
          included_routines := acc.included_routines ++ [fqdn.reprPy]
          included_packages := setAdd acc.included_packages (pyRepr fqdn.package) }
      else
        { acc with
          include_routines := acc.include_routines ++ [fqdn]
          included_routines_no_pkg := acc.included_routines_no_pkg ++ [pyRepr fqdn.routine] }
    includeLoop acc rest

/-- The exclude-packages loop of `Schema.__post_init__`: uppercase each
package name and collect it; compile it into the `excluded_packages` set
only when no include-routine exists. -/
def excludePkgLoop (includeNonEmpty : Bool) (acc : List String × List String) :
    List String → List String × List String
  | [] => acc
  | p :: rest =>
    let p := pyUpper p
    let acc := (acc.1 ++ [p], if includeNonEmpty then acc.2 else setAdd acc.2 (pyRepr p))
    excludePkgLoop includeNonEmpty acc rest

/-- Accumulators of the exclude-routines loop in `Schema.__post_init__`. -/
structure ExcludeAcc where
  exclude_routines : List FQDN := []
  excluded_routines : List String := []
  excluded_routines_no_pkg : List String := []
deriving DecidableEq, Repr

/-- The exclude-routines loop of `Schema.__post_init__`: build an `FQDN`
from each normalized specifier and collect it; compile the exclusion
fragments only when no include-routine exists. -/
def excludeRoutineLoop (includeNonEmpty : Bool) (acc : ExcludeAcc) :
    List (List String) → Except String ExcludeAcc
  | [] => .ok acc
  | routine :: rest =>
    match mkFQDN routine with
    | .error e => .error e
    | .ok fqdn =>
    let acc := { acc with exclude_routines := acc.exclude_routines ++ [fqdn] }
    let acc :=
      if includeNonEmpty then acc
      else if fqdn.package ≠ "" then
        { acc with excluded_routines := acc.excluded_routines ++ [fqdn.reprPy] }
      else
        { acc with excluded_routines_no_pkg := acc.excluded_routines_no_pkg ++ [fqdn.reprPy] }
    excludeRoutineLoop includeNonEmpty acc rest

/-- `Schema.__post_init__`: uppercase the name, default and uppercase the
no-package bucket name, run the three loops, and join the compiled
fragments with `', '`. -/
def Schema.build (input : SchemaIn) : Except String Schema :=
  let name := pyUpper input.name
  let noPkg := pyUpper (if input.no_package_name = "" then name ++ "_no_pkg"
                else input.no_package_name)
  match includeLoop {} (Schema.normalize name input.include_routines) with
  | .error e => .error e
  | .ok inc =>
  let includeNonEmpty : Bool := inc.include_routines ≠ []
  let excludePkgs :=
    excludePkgLoop includeNonEmpty ([], []) input.exclude_packages
  match excludeRoutineLoop includeNonEmpty {}
    (Schema.normalize name input.exclude_routines) with
  | .error e => .error e
  | .ok exc =>
  .ok {
    name := name
    no_package_name := noPkg
    introspection_appendix := input.introspection_appendix
    exclude_packages := excludePkgs.1
    exclude_routines := exc.exclude_routines
    include_routines := inc.include_routines
    included_packages := pyJoin ", " inc.included_packages
    excluded_packages := pyJoin ", " excludePkgs.2
    included_routines := pyJoin ", " inc.included_routines
    excluded_routines := pyJoin ", " exc.excluded_routines
    included_routines_no_pkg := pyJoin ", " inc.included_routines_no_pkg
    excluded_routines_no_pkg := pyJoin ", " exc.excluded_routines_no_pkg }

end Config

namespace Intro

/-- The tuple delivered for one row by the database cursor, before
`IntrospectionRow.__post_init__` runs: strings keep the case the database
reported, `is_package` is the literal `1`/`0` of the query, `overload` may
be NULL, `defaulted` is the `Y`/`N` flag. -/
structure RawIntrospectionRow where
  schema : String
  package : String
  is_package : Int
  routine : String
  routine_type : String
  object_id : Int
  overload : Option Int
  subprogram_id : Int
  argument : String
  position : Int
  sequence : Int
  data_level : Int
  data_type : String
  custom_type_schema : Option String
  custom_type_package : Option String
  custom_type : Option String
  defaulted : String
  default_value : Option String
  in_out : String
deriving DecidableEq, Repr

/-- `introspection.IntrospectionRow` after `__post_init__`. -/
structure IntrospectionRow where
  schema : String
  package : String
  is_package : Bool
  routine : String
  routine_type : String
  object_id : Int
  overload : Int
  subprogram_id : Int
  argument : String
  position : Int
  sequence : Int
  data_level : Int
  data_type : String
  custom_type_schema : Option String
  custom_type_package : Option String
  custom_type : Option String
  defaulted : Bool
  default_value : Option String
  in_out : String
deriving DecidableEq, Repr

/-- `IntrospectionRow.__post_init__`: coerce `is_package` to a boolean,
turn `defaulted` into `True` exactly on `Y`, default a NULL `overload` to
0, and lowercase every attribute that is a string at that point. -/
def mkIntrospectionRow (raw : RawIntrospectionRow) : IntrospectionRow where
  schema := pyLower raw.schema
  package := pyLower raw.package
  is_package := raw.is_package ≠ 0
  routine := pyLower raw.routine
  routine_type := pyLower raw.routine_type
  object_id := raw.object_id
  overload := raw.overload.getD 0
  subprogram_id := raw.subprogram_id
  argument := pyLower raw.argument
  position := raw.position
  sequence := raw.sequence
  data_level := raw.data_level
  data_type := pyLower raw.data_type
  custom_type_schema := raw.custom_type_schema.map pyLower
  custom_type_package := raw.custom_type_package.map pyLower
  custom_type := raw.custom_type.map pyLower
  defaulted := raw.defaulted = "Y"
  default_value := raw.default_value.map pyLower
  in_out := pyLower raw.in_out

/-- `IntrospectionRow.override`: `setattr` every field present in the
appendix entry's `new` mapping onto the row. -/
def IntrospectionRow.override (row : IntrospectionRow)
    (data : Config.IntrospectionAppendix) : IntrospectionRow where
  schema := data.new.schema.getD row.schema
  package := data.new.package.getD row.package
  is_package := data.new.is_package.getD row.is_package
  routine := data.new.routine.getD row.routine
  routine_type := data.new.routine_type.getD row.routine_type
  object_id := data.new.object_id.getD row.object_id
  overload := data.new.overload.getD row.overload
  subprogram_id := data.new.subprogram_id.getD row.subprogram_id
  argument := data.new.argument.getD row.argument
  position := data.new.position.getD row.position
  sequence := data.new.sequence.getD row.sequence
  data_level := data.new.data_level.getD row.data_level
  data_type := data.new.data_type.getD row.data_type
  custom_type_schema := data.new.custom_type_schema.getD row.custom_type_schema
  custom_type_package := data.new.custom_type_package.getD row.custom_type_package
  custom_type := data.new.custom_type.getD row.custom_type
  defaulted := data.new.defaulted.getD row.defaulted
  default_value := data.new.default_value.getD row.default_value
  in_out := data.new.in_out.getD row.in_out

/-- The override pass of `Inspect._introspect_one_schema`: first attempt
the subprogram-level key `(object_id, subprogram_id)`, then the
argument-level key `(object_id, subprogram_id, position)`; the second
lookup reads the row as left by the first override. Both may apply; no
error is raised for overlapping keys. -/
def applyAppendix (appendix : Config.AppendixMap) (row : IntrospectionRow) :
    IntrospectionRow :=
  let row :=
    match appendix.lookup (.sub row.object_id row.subprogram_id) with
    | some a => row.override a
    | none => row
  match appendix.lookup (.arg row.object_id row.subprogram_id row.position) with
  | some a => row.override a
  | none => row

/-- `introspection.COMPLEX_TYPES`. -/
def COMPLEX_TYPES : List String :=
  ["ref cursor", "object", "varray", "table", "record", "pl/sql table", "pl/sql record"]

/-- `introspection.INTROSPECTION_WITH_PACKAGE_SQL` (after `.strip()`). -/
def INTROSPECTION_WITH_PACKAGE_SQL : String :=
  "select
    ao.owner schema,
    ao.object_name package,
    1 is_package,
    ap.procedure_name routine,
    case when exists (
        select null from all_arguments
        where
            object_id = ap.object_id
            and subprogram_id = ap.subprogram_id
            and argument_name is null
            and in_out = \x27OUT\x27
    ) then \x27FUNCTION\x27 else \x27PROCEDURE\x27
    end routine_type,
    ap.object_id object_id,
    ap.overload overload,
    aa.subprogram_id subprogram_id,
    case when (
        aa.argument_name is null
        and aa.in_out = \x27OUT\x27
        and aa.data_level = 0
    ) then \x27_DBSG_RESULT\x27 else aa.argument_name
    end argument,
    aa.position position,
    aa.sequence sequence,
    aa.data_level data_level,
    aa.data_type data_type,
    aa.type_owner custom_type_schema,
    aa.type_name custom_type_package,
    aa.type_subname custom_type,
    aa.defaulted defaulted,
    aa.default_value default_value,
    aa.in_out in_out
from
    sys.all_objects ao,
    sys.all_procedures ap,
    sys.all_arguments aa
where
    ao.owner = ap.owner
    and ao.object_name = ap.object_name
    and aa.object_id = ap.object_id
    and aa.subprogram_id = ap.subprogram_id
    and ao.object_type = \x27PACKAGE\x27
    and procedure_name is not null
    and ao.owner = :schema
    -- May be relevant, may be not
    -- and ao.status = \x27VALID\x27
    -- and ao.temporary = \x27N\x27
    -- and ao.generated = \x27N\x27
    -- Filter:"

/-- `introspection.INTROSPECTION_WITHOUT_PACKAGE_SQL` (after `.strip()`). -/
def INTROSPECTION_WITHOUT_PACKAGE_SQL : String :=
  "select
    ao.owner schema,
    :no_package_name package,
    0 is_package,
    ap.object_name routine,
    ao.object_type routine_type,
    ap.object_id object_id,
    ap.overload overload,
    aa.subprogram_id subprogram_id,
    case when aa.argument_name is null and aa.in_out = \x27OUT\x27
        then \x27_DBSG_RESULT\x27
        else aa.argument_name
    end argument,
    aa.position position,
    aa.sequence sequence,
    aa.data_level data_level,
    aa.data_type data_type,
    aa.type_owner custom_type_schema,
    aa.type_name custom_type_package,
    aa.type_subname custom_type,
    aa.defaulted defaulted,
    aa.default_value default_value,
    aa.in_out in_out
from
    sys.all_objects ao,
    sys.all_procedures ap,
    sys.all_arguments aa
where
    ao.owner = ap.owner
    and ao.object_name = ap.object_name
    and aa.object_id = ap.object_id
    and aa.subprogram_id = ap.subprogram_id
    and ao.object_type in (\x27FUNCTION\x27, \x27PROCEDURE\x27)
    and ao.owner = :schema
    -- May be relevant, may be not
    -- and ao.status = \x27VALID\x27
    -- and ao.temporary = \x27N\x27
    -- and ao.generated = \x27N\x27
    -- Filter:"

/-- `introspection.INTROSPECTION_ORDER_CLAUSE`. -/
def INTROSPECTION_ORDER_CLAUSE : String :=
  "order by package, object_id, subprogram_id, sequence, position"

/-- Filter clause interpolating the compiled include list for packaged
routines (local string of `_introspect_one_schema`). -/
def included_routines_from_packages (schema : Config.Schema) : String :=
  "    and ao.owner " ++ "|| \x27.\x27 " ++ "|| ao.object_name " ++ "|| \x27.\x27 "
    ++ "|| ap.procedure_name in (" ++ schema.included_routines ++ ")"

/-- Filter clause interpolating the compiled include list for package-less
routines. -/
def included_routines_without_packages (schema : Config.Schema) : String :=
  "  and aa.object_name in (" ++ schema.included_routines_no_pkg ++ ")"

/-- Filter clause interpolating the compiled excluded-packages set. -/
def excluded_packages_clause (schema : Config.Schema) : String :=
  "  and ao.object_name not in (" ++ schema.excluded_packages ++ ")"

/-- Filter clause interpolating the compiled exclude list for packaged
routines. -/
def excluded_routines_from_packages (schema : Config.Schema) : String :=
  "  and ao.owner " ++ "|| \x27.\x27 " ++ "|| ao.object_name " ++ "|| \x27.\x27 "
    ++ "|| ap.procedure_name not in (" ++ schema.excluded_routines ++ ")"

/-- Filter clause interpolating the compiled exclude list for package-less
routines. -/
def excluded_routines_without_packages (schema : Config.Schema) : String :=
  "  and ao.owner " ++ "|| \x27.\x27 " ++ "|| ap.object_name "
    ++ "not in (" ++ schema.excluded_routines_no_pkg ++ ")"

/-- The SQL pieces assembled by `Inspect._introspect_one_schema` (later
joined with newlines). The sequential `sql.append` calls of the source are
rendered as list concatenation: includes, when present, restrict the
fetch to the allow-listed branches; otherwise both base queries are
unioned with the deny-list clauses that apply; the fixed order clause
closes the query. -/
def introspectOneSchemaSqlList (schema : Config.Schema) : List String :=
  (if schema.include_routines ≠ [] then
    (if schema.included_packages ≠ "" ∧ schema.included_routines_no_pkg = "" then
      [INTROSPECTION_WITH_PACKAGE_SQL, included_routines_from_packages schema]
    else []) ++
    (if schema.included_packages ≠ "" ∧ schema.included_routines_no_pkg ≠ "" then
      [INTROSPECTION_WITH_PACKAGE_SQL, included_routines_from_packages schema,
       "union all",
       INTROSPECTION_WITHOUT_PACKAGE_SQL, included_routines_without_packages schema]
    else []) ++
    (if schema.included_packages = "" ∧ schema.included_routines_no_pkg ≠ "" then
      [INTROSPECTION_WITHOUT_PACKAGE_SQL, included_routines_without_packages schema]
    else [])
  else
    [INTROSPECTION_WITH_PACKAGE_SQL] ++
    (if schema.exclude_packages ≠ [] then [excluded_packages_clause schema] else []) ++
    (if schema.exclude_routines ≠ [] then [excluded_routines_from_packages schema] else []) ++
    ["union all", INTROSPECTION_WITHOUT_PACKAGE_SQL] ++
    (if schema.excluded_routines_no_pkg ≠ "" then
      [excluded_routines_without_packages schema] else [])) ++
  [INTROSPECTION_ORDER_CLAUSE]

/-- The bind parameters assembled by `Inspect._introspect_one_schema`:
`schema` always; `no_package_name` exactly when a without-package branch
is emitted. -/
def introspectOneSchemaBinds (schema : Config.Schema) : List (String × String) :=
  [("schema", schema.name)] ++
    (if schema.include_routines ≠ [] then
      (if (schema.included_packages ≠ "" ∧ schema.included_routines_no_pkg ≠ "") ∨
          (schema.included_packages = "" ∧ schema.included_routines_no_pkg ≠ "") then
        [("no_package_name", schema.no_package_name)]
      else [])
    else [("no_package_name", schema.no_package_name)])

/-- The query assembly of `Inspect._introspect_one_schema`: the SQL pieces
and the bind parameters. -/
def introspectOneSchemaSql (schema : Config.Schema) :
    List String × List (String × String) :=
  (introspectOneSchemaSqlList schema, introspectOneSchemaBinds schema)

/-- `introspection.IntrospectionSchema`: one schema's result batch. -/
structure IntrospectionSchema where
  name : String
  no_package_name : String
  rows : List IntrospectionRow := []
deriving DecidableEq, Repr

/-- `introspection.IntrospectionDatabase`. -/
structure IntrospectionDatabase where
  name : String
  schemes : List IntrospectionSchema := []
deriving DecidableEq, Repr

/-- A database entry of the configuration as the introspection run sees
it: a name and compiled schemas (connection parameters are external). -/
structure ConfigDatabase where
  name : String
  schemes : List Config.Schema
deriving Repr

/-- A connectivity error from the external connector: pool acquisition or
query execution failure. -/
structure DbError where
  message : String
deriving DecidableEq, Repr

/-- The effect of one `Inspect._introspect_one_schema` thread on its
database's result list. The connector executing the assembled query is
external; `fetched` is the outcome of `session_pool.acquire()` plus
`cursor.execute`/`fetchall` — either the materialized raw rows or the
raised connectivity error. On success the rows pass `__post_init__` and
the appendix overrides and the batch is appended. On error the daemon
thread dies before the append, and Python `Thread.join` does not re-raise
exceptions from the thread target, so the run sees nothing: the batch is
simply absent. -/
def introspectOneSchema (schema : Config.Schema)
    (fetched : Except DbError (List RawIntrospectionRow)) :
    Option IntrospectionSchema :=
  match fetched with
  | .error _ => none
  | .ok raws =>
    let rows := (raws.map mkIntrospectionRow).map
      (applyAppendix schema.introspection_appendix)
    some { name := schema.name, no_package_name := schema.no_package_name, rows := rows }

/-- `Inspect.introspection`: one worker per (database, schema), joined
before returning. Batch arrival order across threads is unspecified in the
source; the model uses configuration order (no claim below depends on the
order). The run always returns a result list; a schema whose worker raised
contributes no batch and surfaces no error. -/
def introspection (fetch : Config.Schema → Except DbError (List RawIntrospectionRow))
    (databases : List ConfigDatabase) : List IntrospectionDatabase :=
  databases.map fun db =>
    { name := db.name
      schemes := db.schemes.filterMap fun s => introspectOneSchema s (fetch s) }

end Intro

namespace IR

/-- The flat fields shared by `SimpleArgument` and `ComplexArgument`
(`intermediate_representation.SimpleArgument`). -/
structure ArgFields where
  name : String
  position : Int
  sequence : Int
  data_level : Int
  data_type : String
  custom_type_schema : Option String
  custom_type_package : Option String
  custom_type : Option String
  defaulted : Bool
  default_value : Option String
  in_out : String
deriving DecidableEq, Repr

/-- `SimpleArgument.from_row` (also the field part of
`ComplexArgument.from_row`). -/
def ArgFields.from_row (row : Intro.IntrospectionRow) : ArgFields where
  name := row.argument
  position := row.position
  sequence := row.sequence
  data_level := row.data_level
  data_type := row.data_type
  custom_type_schema := row.custom_type_schema
  custom_type_package := row.custom_type_package
  custom_type := row.custom_type
  defaulted := row.defaulted
  default_value := row.default_value
  in_out := row.in_out

/-- An IR argument: a `SimpleArgument` (flat) or a `ComplexArgument`
carrying nested arguments. -/
inductive Argument where
  | simple (fields : ArgFields)
  | complex (fields : ArgFields) (arguments : List Argument)
deriving Repr

/-- The flat fields of an argument node. -/
def Argument.fields : Argument → ArgFields
  | .simple f => f
  | .complex f _ => f

/-- The `data_level` of an argument node. -/
def Argument.data_level (a : Argument) : Int := a.fields.data_level

/-- The Python exceptions the argument dispatch can raise:
`arguments[-1]` on an empty list raises `IndexError`; the
`complex_child`/`simple_child` properties raise `TypeError` with a fixed
message when the last argument has the wrong class. -/
inductive DispatchError where
  | indexError
  | typeError (msg : String)
deriving DecidableEq, Repr

mutual

/-- `ComplexArgument.dispatch_argument`, with the in-place mutation made
explicit: `self.direct_child_data_level` is `self.data_level + 1`; a
deeper argument is delegated to `self.complex_child` (the last nested
argument, which must be complex), otherwise the argument is appended.
Calling the method on a `SimpleArgument` would be a Python attribute
error; the program never does (the guard `complex_child` runs first). -/
def dispatchInto : Argument → Argument → Except DispatchError Argument
  | .complex f args, arg =>
    if arg.data_level > f.data_level + 1 then
      match dispatchLastAux args arg with
      | .error e => .error e
      | .ok args' => .ok (.complex f args')
    else .ok (.complex f (args ++ [arg]))
  | .simple _, _ =>
    .error (.typeError "SimpleArgument has no attribute dispatch_argument")

/-- `self.complex_child.dispatch_argument(argument)`: resolve the
`complex_child` property — `arguments[-1]` raises `IndexError` on an empty
list and `TypeError` when the last argument is not complex — and dispatch
into it, the in-place mutation of the last element made explicit by
rebuilding the list around it. -/
def dispatchLastAux : List Argument → Argument → Except DispatchError (List Argument)
  | [], _ => .error .indexError
  | [.simple _], _ => .error (.typeError "There is no complex children.")
  | [.complex cf cargs], arg =>
    match dispatchInto (.complex cf cargs) arg with
    | .error e => .error e
    | .ok newLast => .ok [newLast]
  | x :: y :: rest, arg =>
    match dispatchLastAux (y :: rest) arg with
    | .error e => .error e
    | .ok rest' => .ok (x :: rest')

end

/-- `intermediate_representation.Routine`. -/
structure Routine where
  name : String
  type : String
  object_id : Int
  overload : Int
  subprogram_id : Int
  fqdn : Config.FQDN
  arguments : List Argument
deriving Repr

/-- `Routine.from_row`: the routine's identity fields from the row, the
`FQDN` built (and uppercased by the `FQDN` constructor) from the row's
schema, package (blank unless the row belongs to a package) and routine;
no arguments yet. -/
def Routine.from_row (row : Intro.IntrospectionRow) : Routine where
  name := row.routine
  type := row.routine_type
  object_id := row.object_id
  overload := row.overload
  subprogram_id := row.subprogram_id
  fqdn := ⟨pyUpper row.schema,
          pyUpper (if row.is_package then row.package else ""),
          pyUpper row.routine⟩
  arguments := []

/-- `Routine.dispatch_argument`: a data-level-0 argument is appended to the
routine; a deeper one is delegated to `self.complex_child` (the last
argument, which must be a `ComplexArgument`). -/
def Routine.dispatch_argument (r : Routine) (arg : Argument) :
    Except DispatchError Routine :=
  if arg.data_level = 0 then .ok { r with arguments := r.arguments ++ [arg] }
  else
    match dispatchLastAux r.arguments arg with
    | .error e => .error e
    | .ok args' => .ok { r with arguments := args' }

/-- `intermediate_representation.Package`. -/
structure Package where
  name : String
  is_package : Bool
  routines : List Routine
deriving Repr

/-- `intermediate_representation.Schema`. -/
structure Schema where
  name : String
  packages : List Package
deriving Repr

/-- `intermediate_representation.Database`. -/
structure Database where
  name : String
  schemes : List Schema
deriving Repr

/-- `Database.__post_init__`: lowercase the name. -/
def Database.new (name : String) : Database := ⟨pyLower name, []⟩

/-- The package-level half of `Database.dispatch_routine`: reuse the last
package of the schema when the row's package matches its name, else open a
new one; append the routine to it. The in-place mutation of the last node
is modelled by replacing it. -/
def schemaAppend (schema : Schema) (row : Intro.IntrospectionRow)
    (routine : Routine) : Schema :=
  match schema.packages.getLast? with
  | some p =>
    if row.package = p.name then
      { schema with packages := schema.packages.dropLast ++
          [{ p with routines := p.routines ++ [routine] }] }
    else
      { schema with packages := schema.packages ++
          [Package.mk row.package row.is_package [routine]] }
  | none =>
    { schema with packages := [Package.mk row.package row.is_package [routine]] }

/-- `Database.dispatch_routine`: reuse the last schema when the row's
schema matches its name, else open a new one; then place the routine via
the package-level half. -/
def Database.dispatch_routine (db : Database) (row : Intro.IntrospectionRow)
    (routine : Routine) : Database :=
  match db.schemes.getLast? with
  | some s =>
    if row.schema = s.name then
      { db with schemes := db.schemes.dropLast ++ [schemaAppend s row routine] }
    else
      { db with schemes := db.schemes ++
          [schemaAppend (Schema.mk row.schema []) row routine] }
  | none =>
    { db with schemes := [schemaAppend (Schema.mk row.schema []) row routine] }

/-- In `Abstract.intermediate_representation` the local variable `routine`
aliases the routine object most recently appended into the tree, and
`routine.dispatch_argument` mutates it in place. Between two routine
creations no schema or package node is opened, so that object stays the
last routine of the last package of the last schema; the functional model
rewrites it there. When no routine exists yet (`routine is None`, only
before the first row) the dispatch is skipped. -/
def Database.dispatchIntoLastRoutine (db : Database) (arg : Argument) :
    Except DispatchError Database :=
  match db.schemes.getLast? with
  | none => .ok db
  | some s =>
    match s.packages.getLast? with
    | none => .ok db
    | some p =>
      match p.routines.getLast? with
      | none => .ok db
      | some r =>
        match r.dispatch_argument arg with
        | .error e => .error e
        | .ok r => .ok { db with
              schemes := db.schemes.dropLast ++
                [{ s with packages := s.packages.dropLast ++
                    [{ p with routines := p.routines.dropLast ++ [r] }] }] }

/-- The loop state of `Abstract.intermediate_representation` for one
database: the tree built so far and the two sentinels (`None` before the
first row). -/
structure BuildState where
  database : Database
  oid : Option Int
  sid : Option Int

/-- One iteration of the row loop in
`Abstract.intermediate_representation`: make a simple or complex argument
from the row, open a new routine when either sentinel changed, dispatch
the argument into the current routine, update the sentinels. -/
def processRow (st : BuildState) (row : Intro.IntrospectionRow) :
    Except DispatchError BuildState :=
  let argument : Argument :=
    if row.data_type ∉ Intro.COMPLEX_TYPES then .simple (ArgFields.from_row row)
    else .complex (ArgFields.from_row row) []
  let st :=
    if st.oid ≠ some row.object_id ∨ st.sid ≠ some row.subprogram_id then
      { st with database := st.database.dispatch_routine row (Routine.from_row row) }
    else st
  match st.database.dispatchIntoLastRoutine argument with
  | .error e => .error e
  | .ok database =>
    .ok { database := database, oid := some row.object_id, sid := some row.subprogram_id }

/-- The row loop of `Abstract.intermediate_representation`. -/
def processRows (st : BuildState) : List Intro.IntrospectionRow →
    Except DispatchError BuildState
  | [] => .ok st
  | row :: rest =>
    match processRow st row with
    | .error e => .error e
    | .ok st => processRows st rest

/-- The schema loop of `Abstract.intermediate_representation`: sentinels
and the current routine persist across schema batches of one database. -/
def processSchemas (st : BuildState) : List Intro.IntrospectionSchema →
    Except DispatchError BuildState
  | [] => .ok st
  | schema :: rest =>
    match processRows st schema.rows with
    | .error e => .error e
    | .ok st => processSchemas st rest

/-- One database's pass of `Abstract.intermediate_representation`. -/
def buildDatabase (introspected : Intro.IntrospectionDatabase) :
    Except DispatchError Database :=
  match processSchemas ⟨Database.new introspected.name, none, none⟩
    introspected.schemes with
  | .error e => .error e
  | .ok st => .ok st.database

/-- `Abstract.intermediate_representation`: fold every introspected
database into its IR tree, in order. A raised dispatch error aborts the
pass before the later databases are processed. -/
def intermediate_representation : List Intro.IntrospectionDatabase →
    Except DispatchError (List Database)
  | [] => .ok []
  | d :: rest =>
    match buildDatabase d with
    | .error e => .error e
    | .ok db =>
      match intermediate_representation rest with
      | .error e => .error e
      | .ok dbs => .ok (db :: dbs)

mutual

/-- Total number of argument nodes in an argument subtree. -/
def countArg : Argument → Nat
  | .simple _ => 1
  | .complex _ args => 1 + countArgs args

/-- Total number of argument nodes in a list of argument subtrees. -/
def countArgs : List Argument → Nat
  | [] => 0
  | a :: rest => countArg a + countArgs rest

end

mutual

/-- Depth coherence of an argument subtree: a complex argument's direct
children all sit at its own data level plus one, recursively. -/
def argInvB : Argument → Bool
  | .simple _ => true
  | .complex f args => argsInvB (f.data_level + 1) args

/-- Depth coherence of a list of argument subtrees expected at level `d`. -/
def argsInvB (d : Int) : List Argument → Bool
  | [] => true
  | a :: rest => (a.data_level == d && argInvB a) && argsInvB d rest

end

/-- Depth coherence of a whole IR database: every routine's immediate
arguments sit at data level 0 and every complex argument's children sit
one level below it. -/
def Database.wf (db : Database) : Bool :=
  db.schemes.all fun s => s.packages.all fun p =>
    p.routines.all fun r => argsInvB 0 r.arguments

/-- All routines of an IR schema, in tree order. -/
def Schema.routinesOf (s : Schema) : List Routine :=
  (s.packages.map Package.routines).flatten

/-- All routines of an IR database, in tree order. -/
def Database.routinesOf (db : Database) : List Routine :=
  (db.schemes.map Schema.routinesOf).flatten

/-- Number of routine nodes carrying the identifying pair
`(object_id, subprogram_id)`. -/
def countPair (db : Database) (oid sid : Int) : Nat :=
  (db.routinesOf.filter fun r => r.object_id == oid && r.subprogram_id == sid).length

/-- Every schema of the tree has at least one package and every package at
least one routine; true of every tree the builder reaches, because schema
and package nodes are only opened by `dispatch_routine`, which immediately
appends a routine. -/
def nonDegenerate (db : Database) : Bool :=
  db.schemes.all fun s => !s.packages.isEmpty &&
    s.packages.all fun p => !p.routines.isEmpty

/-- Unwrap a successful reconstruction (used to name concrete trees). -/
def orEmptyDb (e : Except DispatchError Database) : Database :=
  match e with
  | .ok db => db
  | .error _ => ⟨"", []⟩

/-- The identifying pair of a row. -/
def pairOf (r : Intro.IntrospectionRow) : Int × Int := (r.object_id, r.subprogram_id)

/-- Lexicographic order on strings, written on the character list (the
same order as `String.lt`, cf. `String.lt_iff_toList_lt`), so that
concrete batches evaluate. -/
def strLt (a b : String) : Prop := a.data < b.data

/-- Strict lexicographic order on the ordering key of the introspection
query: `(package, object_id, subprogram_id, sequence, position)`. -/
def rowKeyLt (a b : Intro.IntrospectionRow) : Prop :=
  strLt a.package b.package ∨ (a.package = b.package ∧
    (a.object_id < b.object_id ∨ (a.object_id = b.object_id ∧
      (a.subprogram_id < b.subprogram_id ∨ (a.subprogram_id = b.subprogram_id ∧
        (a.sequence < b.sequence ∨ (a.sequence = b.sequence ∧
          a.position < b.position)))))))

/-- A batch strictly ordered by the query's ordering key. -/
def strictlyOrdered (rows : List Intro.IntrospectionRow) : Prop :=
  rows.Pairwise rowKeyLt

/-- Rows with the same `(object_id, subprogram_id)` pair name the same
package — true of the source queries, where the package column is the
object owning the ids. -/
def packageDetermined (rows : List Intro.IntrospectionRow) : Prop :=
  ∀ a ∈ rows, ∀ b ∈ rows, pairOf a = pairOf b → a.package = b.package

/-- Greedy left-to-right grouping of rows exactly as the sentinels group
them: `prev` is the previous row (the sentinels' content), `cur` the open
group; a row whose pair differs from the previous row's closes the group. -/
def pairGroupsAux (prev : Intro.IntrospectionRow)
    (cur : List Intro.IntrospectionRow) :
    List Intro.IntrospectionRow → List (List Intro.IntrospectionRow)
  | [] => [cur]
  | r :: rest =>
    if pairOf prev = pairOf r then pairGroupsAux r (cur ++ [r]) rest
    else cur :: pairGroupsAux r [r] rest

/-- Sentinel-grouping of a batch: maximal runs of rows whose pair matches
the immediately preceding row's pair. -/
def pairGroups : List Intro.IntrospectionRow → List (List Intro.IntrospectionRow)
  | [] => []
  | r :: rest => pairGroupsAux r [r] rest

/-- Correspondence between a routine node and the sentinel-group it was
built from: the routine carries the group's identifying pair, and its
immediate arguments are exactly the group's data-level-0 rows, in row
order. -/
def routineMatchesGroup (r : Routine) (g : List Intro.IntrospectionRow) : Prop :=
  g.head?.map pairOf = some (r.object_id, r.subprogram_id) ∧
  r.arguments.map Argument.fields =
    (g.filter fun row => row.data_level == 0).map ArgFields.from_row

/-- The identifying pair named by a group's first row. -/
def headPairOf (g : List Intro.IntrospectionRow) : Option (Int × Int) :=
  g.head?.map pairOf

/-- Every row of the group carries the pair named by its first row. -/
def groupCoherent (g : List Intro.IntrospectionRow) : Prop :=
  ∀ x ∈ g, headPairOf g = some (pairOf x)

/-- The string order is decidable (it is the character-list order). -/
instance (a b : String) : Decidable (strLt a b) := by
  unfold strLt
  infer_instance

/-- The ordering-key comparison is decidable. -/
instance (a b : Intro.IntrospectionRow) : Decidable (rowKeyLt a b) := by
  unfold rowKeyLt
  infer_instance

/-- Strict orderedness of a concrete batch is decidable. -/
instance (rows : List Intro.IntrospectionRow) :
    Decidable (strictlyOrdered rows) := by
  unfold strictlyOrdered
  infer_instance

/-- Package-determination of a concrete batch is decidable. -/
instance (rows : List Intro.IntrospectionRow) :
    Decidable (packageDetermined rows) := by
  unfold packageDetermined
  infer_instance

/-- A routine with no arguments yet, for exercising the dispatch errors. -/
def exampleRoutineC9 : Routine where
  name := "payroll"
  type := "procedure"
  object_id := 1
  overload := 0
  subprogram_id := 1
  fqdn := ⟨"BILLS", "PKG", "PAYROLL"⟩
  arguments := []

/-- A depth-1 scalar argument with no structural parent to receive it. -/
def exampleArgC9 : Argument :=
  .simple
    { name := "member"
      position := 5
      sequence := 1
      data_level := 1
      data_type := "varchar2"
      custom_type_schema := none
      custom_type_package := none
      custom_type := none
      defaulted := false
      default_value := none
      in_out := "in" }

end IR

/-- No ASCII uppercase letter occurs in the string: what Python's `lower`
guarantees for the ASCII identifier strings this program handles. -/
def noUpperB (s : String) : Bool := s.data.all fun c => !c.isUpper

namespace Intro

/-- A concrete fetched row exercising the appendix override order. -/
def exampleRowC4 : IntrospectionRow where
  schema := "bills"
  package := "pkg"
  is_package := true
  routine := "payroll"
  routine_type := "procedure"
  object_id := 1
  overload := 0
  subprogram_id := 1
  argument := "out_x"
  position := 2
  sequence := 3
  data_level := 0
  data_type := "record"
  custom_type_schema := none
  custom_type_package := none
  custom_type := none
  defaulted := false
  default_value := none
  in_out := "out"

/-- A subprogram-level appendix entry for `exampleRowC4`: sets the row's
`data_type` and `in_out`. -/
def exampleEntrySubC4 : Config.IntrospectionAppendix where
  comment := "subprogram level"
  object_id := 1
  subprogram_id := 1
  new := { data_type := some "varchar2", in_out := some "in" }

/-- An argument-level appendix entry for `exampleRowC4`: sets `data_type`
again, conflicting with the subprogram-level entry. -/
def exampleEntryArgC4 : Config.IntrospectionAppendix where
  comment := "argument level"
  object_id := 1
  subprogram_id := 1
  position := some 2
  new := { data_type := some "number" }

/-- An appendix holding both entries for the same row. -/
def exampleAppendixC4 : Config.AppendixMap :=
  [(.sub 1 1, exampleEntrySubC4), (.arg 1 1 2, exampleEntryArgC4)]

/-- A compiled schema whose fetch will fail in the failure examples. -/
def exampleSchemaC7A : Config.Schema where
  name := "A"
  no_package_name := "A_NO_PKG"
  introspection_appendix := []
  exclude_packages := []
  exclude_routines := []
  include_routines := []
  included_packages := ""
  excluded_packages := ""
  included_routines := ""
  excluded_routines := ""
  included_routines_no_pkg := ""
  excluded_routines_no_pkg := ""

/-- A compiled schema whose fetch succeeds in the failure examples. -/
def exampleSchemaC7B : Config.Schema where
  name := "B"
  no_package_name := "B_NO_PKG"
  introspection_appendix := []
  exclude_packages := []
  exclude_routines := []
  include_routines := []
  included_packages := ""
  excluded_packages := ""
  included_routines := ""
  excluded_routines := ""
  included_routines_no_pkg := ""
  excluded_routines_no_pkg := ""

/-- A connector behaviour where schema `A` raises and the rest succeed
with an empty row set. -/
def exampleFetchC7 (s : Config.Schema) :
    Except DbError (List RawIntrospectionRow) :=
  if s.name = "A" then .error ⟨"ORA-12170: connect timeout"⟩ else .ok []

/-- A depth-0 structured argument row (a nested table). -/
def exampleRowTable : IntrospectionRow where
  schema := "bills"
  package := "pkg"
  is_package := true
  routine := "payroll"
  routine_type := "procedure"
  object_id := 1
  overload := 0
  subprogram_id := 1
  argument := "in_rows"
  position := 1
  sequence := 1
  data_level := 0
  data_type := "table"
  custom_type_schema := none
  custom_type_package := none
  custom_type := none
  defaulted := false
  default_value := none
  in_out := "in"

/-- A depth-1 scalar row nested inside `exampleRowTable`. -/
def exampleRowNested : IntrospectionRow :=
  { exampleRowTable with
    argument := "member"
    position := 1
    sequence := 2
    data_level := 1
    data_type := "varchar2" }

/-- A one-database, one-schema introspection result with one structured
argument holding one nested member. -/
def exampleIntroNested : List IntrospectionDatabase :=
  [⟨"DB", [⟨"bills", "bills_no_pkg", [exampleRowTable, exampleRowNested]⟩]⟩]

/-- A first-of-its-routine row whose depth-1 level cannot be reconciled
(routine `a`, position 5). -/
def exampleRowOrphanA : IntrospectionRow :=
  { exampleRowTable with
    routine := "a", data_level := 1, data_type := "varchar2", position := 5 }

/-- Another unreconcilable row with a different routine and position
(routine `b`, position 7). -/
def exampleRowOrphanB : IntrospectionRow :=
  { exampleRowTable with
    routine := "b", data_level := 1, data_type := "varchar2", position := 7 }

/-- A batch failing reconstruction at routine `a`, position 5. -/
def exampleIntroBadA : List IntrospectionDatabase :=
  [⟨"DB", [⟨"bills", "bills_no_pkg", [exampleRowOrphanA]⟩]⟩]

/-- A batch failing reconstruction at routine `b`, position 7. -/
def exampleIntroBadB : List IntrospectionDatabase :=
  [⟨"DB", [⟨"bills", "bills_no_pkg", [exampleRowOrphanB]⟩]⟩]

/-- Rows of a strictly ordered batch in which the pair `(1, 1)` occurs in
two different packages and hence in two non-contiguous runs:
`(a,1,1) < (a,2,1) < (b,1,1)` in the ordering key. -/
def exampleRowsSplitPair : List IntrospectionRow :=
  [{ exampleRowTable with
      package := "a", object_id := 1, subprogram_id := 1,
      data_type := "varchar2", data_level := 0 },
   { exampleRowTable with
      package := "a", object_id := 2, subprogram_id := 1,
      data_type := "varchar2", data_level := 0 },
   { exampleRowTable with
      package := "b", object_id := 1, subprogram_id := 1,
      data_type := "varchar2", data_level := 0 }]

/-- A strictly ordered two-routine batch sharing one package. -/
def exampleRowsOrdered : List IntrospectionRow :=
  [{ exampleRowTable with
      package := "pkg", object_id := 1, subprogram_id := 1, position := 1,
      sequence := 1, data_type := "varchar2", data_level := 0 },
   { exampleRowTable with
      package := "pkg", object_id := 1, subprogram_id := 1, position := 2,
      sequence := 2, data_type := "varchar2", data_level := 0,
      argument := "second" },
   { exampleRowTable with
      package := "pkg", object_id := 1, subprogram_id := 2, position := 1,
      sequence := 1, data_type := "varchar2", data_level := 0,
      routine := "other" }]

end Intro

/-! ## Lemmas about the string helpers -/

/-- A string with a nonempty left append component is nonempty. -/
theorem append_ne_empty_left {a : String} (b : String) (h : a ≠ "") :
    a ++ b ≠ "" := by
  intro hab
  apply h
  have hd : (a ++ b).data = ([] : List Char) := congrArg String.data hab
  rw [String.data_append] at hd
  rcases List.append_eq_nil.mp hd with ⟨ha, _⟩
  cases a
  simp_all

/-- A Python repr string is never empty: it carries its quotes. -/
theorem pyRepr_ne_empty (s : String) : pyRepr s ≠ "" := by
  unfold pyRepr
  exact append_ne_empty_left _ (append_ne_empty_left _ (by decide))

/-- Joining a nonempty list of nonempty strings gives a nonempty string. -/
theorem pyJoin_ne_empty (sep : String) :
    ∀ l, l ≠ [] → (∀ x ∈ l, x ≠ "") → pyJoin sep l ≠ ""
  | [], h, _ => absurd rfl h
  | [x], _, hx => by simpa [pyJoin] using hx x (by simp)
  | x :: y :: rest, _, hx => by
    simp only [pyJoin]
    exact append_ne_empty_left _ (append_ne_empty_left _ (hx x (by simp)))

/-- `setAdd` never empties the accumulator. -/
theorem setAdd_ne_nil (s : List String) (x : String) : setAdd s x ≠ [] := by
  unfold setAdd
  split
  · exact List.ne_nil_of_mem (by assumption)
  · simp

/-- Members of `setAdd s x` come from `s` or are `x`. -/
theorem mem_setAdd {s : List String} {x y : String} (h : y ∈ setAdd s x) :
    y ∈ s ∨ y = x := by
  unfold setAdd at h
  split at h
  · exact .inl h
  · rcases List.mem_append.mp h with h | h
    · exact .inl h
    · exact .inr (by simpa using h)

/-- Strings whose first characters differ are different. -/
theorem head_char_ne {a b : String} {c d : Char} (ha : a.data.head? = some c)
    (hb : b.data.head? = some d) (hcd : c ≠ d) : a ≠ b := by
  intro e
  rw [e, hb] at ha
  exact hcd (by injection ha; simp_all)

namespace Config

/-! ## Lemmas about the filter compiler -/

/-- `mkFQDN` succeeds exactly on three segments. -/
theorem mkFQDN_ok_iff (l : List String) : (mkFQDN l).isOk = true ↔ l.length = 3 := by
  unfold mkFQDN
  match l with
  | [] => simp [Except.isOk, Except.toBool]
  | [a] => simp [Except.isOk, Except.toBool]
  | [a, b] => simp [Except.isOk, Except.toBool]
  | [a, b, c] => simp [Except.isOk, Except.toBool]
  | a :: b :: c :: d :: rest => simp [Except.isOk, Except.toBool]

/-- The include loop adds one `FQDN` per processed specifier. -/
theorem includeLoop_length :
    ∀ (l : List (List String)) (acc acc' : IncludeAcc),
      includeLoop acc l = .ok acc' →
      acc'.include_routines.length = acc.include_routines.length + l.length := by
  intro l
  induction l with
  | nil =>
    intro acc acc' h
    simp only [includeLoop] at h
    cases h
    simp
  | cons routine rest ih =>
    intro acc acc' h
    cases hf : mkFQDN routine with
    | error e => simp [includeLoop, hf] at h
    | ok fqdn =>
      simp only [includeLoop, hf] at h
      by_cases hp : fqdn.package ≠ "" <;>
          [rw [if_pos hp] at h; rw [if_neg hp] at h] <;>
        · have hrec := ih _ _ h
          simp only [List.length_append, List.length_cons] at hrec ⊢
          simp at hrec
          omega

/-- The include loop keeps one of the two compiled include fragments
nonempty once it is, and starts one as soon as it processes a specifier. -/
theorem includeLoop_frag_nonempty :
    ∀ (l : List (List String)) (acc acc' : IncludeAcc),
      includeLoop acc l = .ok acc' →
      ((acc.included_packages ≠ [] ∨ acc.included_routines_no_pkg ≠ []) ∨ l ≠ []) →
      (acc'.included_packages ≠ [] ∨ acc'.included_routines_no_pkg ≠ []) := by
  intro l
  induction l with
  | nil =>
    intro acc acc' h hd
    simp only [includeLoop] at h
    cases h
    rcases hd with hd | hd
    · exact hd
    · exact absurd rfl hd
  | cons routine rest ih =>
    intro acc acc' h _
    cases hf : mkFQDN routine with
    | error e => simp [includeLoop, hf] at h
    | ok fqdn =>
      simp only [includeLoop, hf] at h
      by_cases hp : fqdn.package ≠ ""
      · rw [if_pos hp] at h
        exact ih _ _ h (.inl (.inl (setAdd_ne_nil _ _)))
      · rw [if_neg hp] at h
        exact ih _ _ h (.inl (.inr (by simp)))

/-- Every compiled include fragment the loop accumulates is nonempty. -/
theorem includeLoop_frag_elems :
    ∀ (l : List (List String)) (acc acc' : IncludeAcc),
      includeLoop acc l = .ok acc' →
      (∀ x ∈ acc.included_packages, x ≠ "") →
      (∀ x ∈ acc.included_routines_no_pkg, x ≠ "") →
      (∀ x ∈ acc'.included_packages, x ≠ "") ∧
        (∀ x ∈ acc'.included_routines_no_pkg, x ≠ "") := by
  intro l
  induction l with
  | nil =>
    intro acc acc' h h1 h2
    simp only [includeLoop] at h
    cases h
    exact ⟨h1, h2⟩
  | cons routine rest ih =>
    intro acc acc' h h1 h2
    cases hf : mkFQDN routine with
    | error e => simp [includeLoop, hf] at h
    | ok fqdn =>
      simp only [includeLoop, hf] at h
      by_cases hp : fqdn.package ≠ ""
      · rw [if_pos hp] at h
        refine ih _ _ h ?_ h2
        intro x hx
        rcases mem_setAdd hx with hx | hx
        · exact h1 x hx
        · subst hx; exact pyRepr_ne_empty _
      · rw [if_neg hp] at h
        refine ih _ _ h h1 ?_
        intro x hx
        rcases List.mem_append.mp hx with hx | hx
        · exact h2 x hx
        · rw [List.mem_singleton.mp hx]; exact pyRepr_ne_empty _

/-- With an active allow-list the exclude-packages loop compiles nothing. -/
theorem excludePkgLoop_true :
    ∀ (l : List String) (acc : List String × List String),
      (excludePkgLoop true acc l).2 = acc.2 := by
  intro l
  induction l with
  | nil => intro acc; rfl
  | cons p rest ih => intro acc; simpa [excludePkgLoop] using ih _

/-- With an active allow-list the exclude-routines loop compiles nothing. -/
theorem excludeRoutineLoop_true :
    ∀ (l : List (List String)) (acc acc' : ExcludeAcc),
      excludeRoutineLoop true acc l = .ok acc' →
      acc'.excluded_routines = acc.excluded_routines ∧
        acc'.excluded_routines_no_pkg = acc.excluded_routines_no_pkg := by
  intro l
  induction l with
  | nil =>
    intro acc acc' h
    simp only [excludeRoutineLoop] at h
    cases h
    exact ⟨rfl, rfl⟩
  | cons routine rest ih =>
    intro acc acc' h
    cases hf : mkFQDN routine with
    | error e => simp [excludeRoutineLoop, hf] at h
    | ok fqdn =>
      simp only [excludeRoutineLoop, hf] at h
      simpa using ih _ _ h

/-- An errored include loop errors for any specifier list containing a
normalized entry without exactly three segments. -/
theorem includeLoop_error_of_bad :
    ∀ (l : List (List String)) (acc : IncludeAcc),
      (∃ x ∈ l, x.length ≠ 3) → (includeLoop acc l).isOk = false := by
  intro l
  induction l with
  | nil => intro acc h; simp at h
  | cons routine rest ih =>
    intro acc h
    cases hf : mkFQDN routine with
    | error e => simp [includeLoop, hf, Except.isOk, Except.toBool]
    | ok fqdn =>
      have hlen : routine.length = 3 :=
        (mkFQDN_ok_iff routine).mp (by rw [hf]; rfl)
      rcases h with ⟨x, hx, hxl⟩
      rcases List.mem_cons.mp hx with hx | hx
      · subst hx; exact absurd hlen hxl
      · simp only [includeLoop, hf]
        by_cases hp : fqdn.package ≠ "" <;>
          [rw [if_pos hp]; rw [if_neg hp]] <;> exact ih _ ⟨x, hx, hxl⟩

/-- C3: a schema filter spec constructed with a non-empty
`include_routines` list compiles empty exclude-side query fragments
(`excluded_packages`, `excluded_routines`, `excluded_routines_no_pkg`),
regardless of the supplied exclude lists. -/
theorem claim_C3_includes_shortcircuit_excludes
    (input : SchemaIn) (s : Schema)
    (hinc : input.include_routines ≠ [])
    (hok : Schema.build input = .ok s) :
    s.excluded_packages = "" ∧ s.excluded_routines = "" ∧
      s.excluded_routines_no_pkg = "" := by
  cases h1 : includeLoop {} (Schema.normalize (pyUpper input.name) input.include_routines) with
  | error e => simp [Schema.build, h1] at hok
  | ok inc =>
    have hlen := includeLoop_length _ _ _ h1
    have hne : inc.include_routines ≠ [] := by
      intro hnil
      rw [hnil] at hlen
      simp [Schema.normalize] at hlen
      exact hinc (List.eq_nil_of_length_eq_zero hlen.symm)
    simp only [Schema.build, h1] at hok
    rw [decide_eq_true (p := inc.include_routines ≠ []) hne] at hok
    cases h2 : excludeRoutineLoop true {}
        (Schema.normalize (pyUpper input.name) input.exclude_routines) with
    | error e => rw [h2] at hok; simp at hok
    | ok exc =>
      rw [h2] at hok
      simp only [Except.ok.injEq] at hok
      obtain ⟨hr, hnp⟩ := excludeRoutineLoop_true _ _ _ h2
      subst hok
      refine ⟨?_, ?_, ?_⟩
      · simp [excludePkgLoop_true, pyJoin]
      · simp [hr, pyJoin]
      · simp [hnp, pyJoin]

/-- Witness for C3 at a concrete schema spec with both includes and
excludes: the input is `name billing`, excluded packages `[badpkg]`,
excluded routines `[badroutine]`, included routines `[pkg.routine]`. -/
theorem claim_C3_witness :
    (Schema.build ⟨"billing", "", [], ["badpkg"], ["badroutine"], ["pkg.routine"]⟩).toOption.elim
      False
      (fun s => s.excluded_packages = "" ∧ s.excluded_routines = "" ∧
        s.excluded_routines_no_pkg = "") := by
  have hisok : (Schema.build ⟨"billing", "", [], ["badpkg"], ["badroutine"],
      ["pkg.routine"]⟩).isOk = true := by decide
  cases hok : Schema.build ⟨"billing", "", [], ["badpkg"], ["badroutine"], ["pkg.routine"]⟩ with
  | error e => rw [hok] at hisok; simp [Except.isOk, Except.toBool] at hisok
  | ok s =>
    simpa [Except.toOption] using
      claim_C3_includes_shortcircuit_excludes _ s (by decide) hok

/-- C5 (amended): normalization yields exactly three segments for
specifiers of one or two segments, and for three-segment specifiers whose
first segment is the schema name (a three-segment specifier with a foreign
first segment gets the schema name prepended and keeps four segments);
`routine` and `schema.routine` normalize to the same FQDN as
`schema.routine` and `schema..routine` respectively, for schema name
`schema`. -/
theorem claim_C5_normalize_segment_count (name o : String)
    (h : (pySplitDot o).length = 1 ∨ (pySplitDot o).length = 2 ∨
      ((pySplitDot o).length = 3 ∧ (pySplitDot o).head? = some name)) :
    (normalizeOne name o).length = 3 ∧
    (Schema.normalize "schema" ["routine"]).map mkFQDN =
      (Schema.normalize "schema" ["schema.routine"]).map mkFQDN ∧
    (Schema.normalize "schema" ["schema.routine"]).map mkFQDN =
      (Schema.normalize "schema" ["schema..routine"]).map mkFQDN := by
  refine ⟨?_, rfl, rfl⟩
  unfold normalizeOne
  generalize hs : pySplitDot o = segs at h ⊢
  match segs, h with
  | [], h => simp at h
  | [first], h => simp
  | [first, b], h => by_cases hf : first = name <;> simp [hf]
  | [first, b, c], h =>
    have hfn : first = name := by
      rcases h with h | h | ⟨_, hh⟩ <;> simp_all
    simp [hfn]
  | first :: b :: c :: d :: rest, h =>
    rcases h with h | h | ⟨h, _⟩ <;> simp at h

/-- Witness for C5 at the two-segment specifier `pkg.routine`. -/
theorem claim_C5_witness :
    (Config.normalizeOne "schema" "pkg.routine").length = 3 ∧
    (Config.Schema.normalize "schema" ["routine"]).map Config.mkFQDN =
      (Config.Schema.normalize "schema" ["schema.routine"]).map Config.mkFQDN ∧
    (Config.Schema.normalize "schema" ["schema.routine"]).map Config.mkFQDN =
      (Config.Schema.normalize "schema" ["schema..routine"]).map Config.mkFQDN :=
  claim_C5_normalize_segment_count "schema" "pkg.routine" (by decide)

/-- Counterexample to C5 as stated: `a.b.c` is a valid three-segment
dotted specifier, yet normalization against schema name `schema` prepends
the schema name and produces four segments, not three. -/
theorem claim_C5_counterexample :
    (pySplitDot "a.b.c").length = 3 ∧
    Config.Schema.normalize "schema" ["a.b.c"] = [["schema", "a", "b", "c"]] ∧
    (Config.normalizeOne "schema" "a.b.c").length = 4 := by
  refine ⟨by decide, rfl, by decide⟩

/-- C8 (amended): a specifier that normalizes to more than three segments
makes schema construction fail fast (the include loop aborts on the first
bad specifier), but the raised error is the fixed tuple-unpacking error:
two builds failing on different specifiers and different schema names
produce identical errors, so neither the specifier nor the schema is
named; and the empty-string specifier is not rejected at all — it
normalizes to `[name, "", ""]` and construction accepts it. -/
theorem claim_C8_malformed_specifier_behaviour (input : SchemaIn)
    (hbad : ∃ o ∈ input.include_routines,
      (normalizeOne (pyUpper input.name) o).length ≠ 3) :
    (Schema.build input).isOk = false ∧
    (∀ name : String, normalizeOne name "" = [name, "", ""]) ∧
    Schema.build { name := "sch1", include_routines := ["a.b.c.d"] } =
      Schema.build { name := "sch2", include_routines := ["p.q.r.s.t"] } := by
  refine ⟨?_, ?_, rfl⟩
  · obtain ⟨o, ho, hol⟩ := hbad
    have hex : ∃ x ∈ Schema.normalize (pyUpper input.name) input.include_routines,
        x.length ≠ 3 :=
      ⟨normalizeOne (pyUpper input.name) o, List.mem_map_of_mem _ ho, hol⟩
    have herr := includeLoop_error_of_bad _ {} hex
    cases h1 : includeLoop {} (Schema.normalize (pyUpper input.name) input.include_routines) with
    | error e => simp [Schema.build, h1, Except.isOk, Except.toBool]
    | ok inc => rw [h1] at herr; simp [Except.isOk, Except.toBool] at herr
  · intro name
    unfold normalizeOne
    have hsplit : pySplitDot "" = [""] := rfl
    rw [hsplit]
    by_cases hn : ("" : String) = name <;> simp [hn]

/-- Witness for C8 at a concrete four-segment specifier. -/
theorem claim_C8_witness :
    (Schema.build { name := "x", include_routines := ["a.b.c.d"] }).isOk = false ∧
    (∀ name : String, Config.normalizeOne name "" = [name, "", ""]) ∧
    Schema.build { name := "sch1", include_routines := ["a.b.c.d"] } =
      Schema.build { name := "sch2", include_routines := ["p.q.r.s.t"] } :=
  claim_C8_malformed_specifier_behaviour
    { name := "x", include_routines := ["a.b.c.d"] } (by decide)

/-- Counterexample to C8 as stated: the empty string is a malformed
specifier, yet schema construction succeeds on it instead of failing fast
with a configuration error. -/
theorem claim_C8_counterexample :
    (Schema.build { name := "schema", include_routines := [""] }).isOk = true := by
  decide

end Config

/-! ## Row normalization and appendix overrides -/

/-- The ASCII lower-case map never produces an upper-case letter. -/
theorem toLower_not_upper (c : Char) : (Char.toLower c).isUpper = false := by
  unfold Char.toLower
  simp only []
  by_cases h : c.toNat ≥ 65 ∧ c.toNat ≤ 90
  · rw [if_pos h]
    have hv : (Char.toNat c + 32).isValidChar := by
      unfold Nat.isValidChar
      left
      omega
    unfold Char.ofNat
    rw [dif_pos hv]
    unfold Char.isUpper
    unfold Char.ofNatAux
    simp only [UInt32.ofNat', ge_iff_le, UInt32.le_def, BitVec.le_def]
    simp only [BitVec.toNat_ofNatLt]
    unfold Char.toNat at h
    simp only [Bool.and_eq_false_iff, decide_eq_false_iff_not]
    right
    have e2 : (90 : UInt32).toBitVec.toNat = 90 := rfl
    have e3 : c.val.toNat = c.val.toBitVec.toNat := rfl
    have e4 : c.toNat = c.val.toNat := rfl
    omega
  · rw [if_neg h]
    unfold Char.isUpper
    unfold Char.toNat at h
    simp only [ge_iff_le, UInt32.le_def, BitVec.le_def]
    simp only [Bool.and_eq_false_iff, decide_eq_false_iff_not]
    have e1 : (65 : UInt32).toBitVec.toNat = 65 := rfl
    have e2 : (90 : UInt32).toBitVec.toNat = 90 := rfl
    have e3 : c.val.toNat = c.val.toBitVec.toNat := rfl
    by_cases h1 : 65 ≤ c.val.toNat
    · right; omega
    · left; omega

/-- A lowered string holds no ASCII uppercase letter. -/
theorem pyLower_noUpper (s : String) : noUpperB (pyLower s) = true := by
  unfold noUpperB pyLower
  simp [List.all_map, Function.comp_def, toLower_not_upper]

/-- A lowered nullable string holds no ASCII uppercase letter. -/
theorem pyLower_opt_noUpper (o : Option String) :
    ((o.map pyLower).all noUpperB) = true := by
  cases o <;> simp [pyLower_noUpper]

/-- C10: after `IntrospectionRow.__post_init__` every string-valued field
is lowercase (no ASCII uppercase letter remains, also inside the nullable
custom-type fields when they are present), `is_package` is the boolean of
the raw query literal, `defaulted` is `true` exactly when the raw flag was
`Y`, and a NULL `overload` is defaulted to 0 — so every row entering
override application and tree reconstruction is normalized. -/
theorem claim_C10_row_normalization (raw : Intro.RawIntrospectionRow) :
    (noUpperB (Intro.mkIntrospectionRow raw).schema &&
     noUpperB (Intro.mkIntrospectionRow raw).package &&
     noUpperB (Intro.mkIntrospectionRow raw).routine &&
     noUpperB (Intro.mkIntrospectionRow raw).routine_type &&
     noUpperB (Intro.mkIntrospectionRow raw).argument &&
     noUpperB (Intro.mkIntrospectionRow raw).data_type &&
     noUpperB (Intro.mkIntrospectionRow raw).in_out &&
     (Intro.mkIntrospectionRow raw).custom_type_schema.all noUpperB &&
     (Intro.mkIntrospectionRow raw).custom_type_package.all noUpperB &&
     (Intro.mkIntrospectionRow raw).custom_type.all noUpperB &&
     (Intro.mkIntrospectionRow raw).default_value.all noUpperB) = true ∧
    ((Intro.mkIntrospectionRow raw).defaulted = true ↔ raw.defaulted = "Y") ∧
    ((Intro.mkIntrospectionRow raw).is_package = true ↔ raw.is_package ≠ 0) ∧
    (Intro.mkIntrospectionRow { raw with overload := none }).overload = 0 := by
  refine ⟨?_, ?_, ?_, rfl⟩
  · simp only [Intro.mkIntrospectionRow]
    simp [pyLower_noUpper, pyLower_opt_noUpper]
  · simp [Intro.mkIntrospectionRow]
  · simp [Intro.mkIntrospectionRow]

/-- C4: when the appendix holds a subprogram-level entry matching the row
and an argument-level entry matching the row as left by the first
override, `_introspect_one_schema` applies the subprogram-level patch
first and the argument-level patch second, so every field set by both
patches ends up with the argument-level value; both steps are total
functions — no error is raised for the overlapping keys. -/
theorem claim_C4_override_order (appendix : Config.AppendixMap)
    (row : Intro.IntrospectionRow) (asub aarg : Config.IntrospectionAppendix)
    (hsub : appendix.lookup
      (Config.AppendixKey.sub row.object_id row.subprogram_id) = some asub)
    (harg : appendix.lookup
      (Config.AppendixKey.arg (row.override asub).object_id
        (row.override asub).subprogram_id
        (row.override asub).position) = some aarg) :
    Intro.applyAppendix appendix row = (row.override asub).override aarg ∧
    (∀ v, aarg.new.schema = some v →
      (Intro.applyAppendix appendix row).schema = v) ∧
    (∀ v, aarg.new.package = some v →
      (Intro.applyAppendix appendix row).package = v) ∧
    (∀ v, aarg.new.is_package = some v →
      (Intro.applyAppendix appendix row).is_package = v) ∧
    (∀ v, aarg.new.routine = some v →
      (Intro.applyAppendix appendix row).routine = v) ∧
    (∀ v, aarg.new.routine_type = some v →
      (Intro.applyAppendix appendix row).routine_type = v) ∧
    (∀ v, aarg.new.object_id = some v →
      (Intro.applyAppendix appendix row).object_id = v) ∧
    (∀ v, aarg.new.overload = some v →
      (Intro.applyAppendix appendix row).overload = v) ∧
    (∀ v, aarg.new.subprogram_id = some v →
      (Intro.applyAppendix appendix row).subprogram_id = v) ∧
    (∀ v, aarg.new.argument = some v →
      (Intro.applyAppendix appendix row).argument = v) ∧
    (∀ v, aarg.new.position = some v →
      (Intro.applyAppendix appendix row).position = v) ∧
    (∀ v, aarg.new.sequence = some v →
      (Intro.applyAppendix appendix row).sequence = v) ∧
    (∀ v, aarg.new.data_level = some v →
      (Intro.applyAppendix appendix row).data_level = v) ∧
    (∀ v, aarg.new.data_type = some v →
      (Intro.applyAppendix appendix row).data_type = v) ∧
    (∀ v, aarg.new.custom_type_schema = some v →
      (Intro.applyAppendix appendix row).custom_type_schema = v) ∧
    (∀ v, aarg.new.custom_type_package = some v →
      (Intro.applyAppendix appendix row).custom_type_package = v) ∧
    (∀ v, aarg.new.custom_type = some v →
      (Intro.applyAppendix appendix row).custom_type = v) ∧
    (∀ v, aarg.new.defaulted = some v →
      (Intro.applyAppendix appendix row).defaulted = v) ∧
    (∀ v, aarg.new.default_value = some v →
      (Intro.applyAppendix appendix row).default_value = v) ∧
    (∀ v, aarg.new.in_out = some v →
      (Intro.applyAppendix appendix row).in_out = v) := by
  have heq : Intro.applyAppendix appendix row = (row.override asub).override aarg := by
    unfold Intro.applyAppendix
    rw [hsub]
    simp only []
    rw [harg]
  refine ⟨heq, ?_, ?_, ?_, ?_, ?_, ?_, ?_, ?_, ?_, ?_, ?_, ?_, ?_, ?_, ?_, ?_, ?_, ?_, ?_⟩ <;>
    · intro v hv
      rw [heq]
      simp [Intro.IntrospectionRow.override, hv]

/-- Witness for C4: in the concrete appendix both entries match the row;
the conflicting `data_type` ends with the argument-level value `number`,
while `in_out`, set only at subprogram level, keeps that value. -/
theorem claim_C4_witness :
    (Intro.applyAppendix Intro.exampleAppendixC4 Intro.exampleRowC4).data_type = "number" ∧
    (Intro.applyAppendix Intro.exampleAppendixC4 Intro.exampleRowC4).in_out = "in" := by
  have h := claim_C4_override_order Intro.exampleAppendixC4 Intro.exampleRowC4
    Intro.exampleEntrySubC4 Intro.exampleEntryArgC4 (by decide) (by decide)
  refine ⟨h.2.2.2.2.2.2.2.2.2.2.2.2.2.1 "number" rfl, ?_⟩
  rw [h.1]
  decide

/-! ## The metadata query builder -/

/-- The with-package query text begins with `select`. -/
theorem with_sql_head :
    Intro.INTROSPECTION_WITH_PACKAGE_SQL.data.head? = some 's' := rfl

/-- The without-package query text begins with `select`. -/
theorem without_sql_head :
    Intro.INTROSPECTION_WITHOUT_PACKAGE_SQL.data.head? = some 's' := rfl

/-- The packaged-routines include clause begins with a space. -/
theorem incFrom_head (s : Config.Schema) :
    (Intro.included_routines_from_packages s).data.head? = some ' ' := rfl

/-- The package-less include clause begins with a space. -/
theorem incWithout_head (s : Config.Schema) :
    (Intro.included_routines_without_packages s).data.head? = some ' ' := rfl

/-- C6: for a compiled schema with a non-empty allow-list, the query
builder emits the with-package query exactly when the compiled
included-packages fragment is nonempty and the without-package query
exactly when the compiled included-routines-no-package fragment is
nonempty; at least one branch is always emitted. -/
theorem claim_C6_no_empty_allowlist_branch
    (input : Config.SchemaIn) (s : Config.Schema)
    (hinc : input.include_routines ≠ [])
    (hok : Config.Schema.build input = .ok s) :
    (Intro.INTROSPECTION_WITH_PACKAGE_SQL ∈ (Intro.introspectOneSchemaSql s).1 ↔
      s.included_packages ≠ "") ∧
    (Intro.INTROSPECTION_WITHOUT_PACKAGE_SQL ∈ (Intro.introspectOneSchemaSql s).1 ↔
      s.included_routines_no_pkg ≠ "") ∧
    (Intro.INTROSPECTION_WITH_PACKAGE_SQL ∈ (Intro.introspectOneSchemaSql s).1 ∨
      Intro.INTROSPECTION_WITHOUT_PACKAGE_SQL ∈ (Intro.introspectOneSchemaSql s).1) := by
  cases h1 : Config.includeLoop {}
      (Config.Schema.normalize (pyUpper input.name) input.include_routines) with
  | error e => simp [Config.Schema.build, h1] at hok
  | ok inc =>
    have hlen := Config.includeLoop_length _ _ _ h1
    have hne : inc.include_routines ≠ [] := by
      intro hnil
      rw [hnil] at hlen
      simp [Config.Schema.normalize] at hlen
      exact hinc (List.eq_nil_of_length_eq_zero hlen.symm)
    have hnorm_ne :
        Config.Schema.normalize (pyUpper input.name) input.include_routines ≠ [] := by
      simp [Config.Schema.normalize, hinc]
    have hdisj := Config.includeLoop_frag_nonempty _ _ _ h1 (.inr hnorm_ne)
    have helems := Config.includeLoop_frag_elems _ _ _ h1 (by simp) (by simp)
    simp only [Config.Schema.build, h1] at hok
    rw [decide_eq_true (p := inc.include_routines ≠ []) hne] at hok
    cases h2 : Config.excludeRoutineLoop true {}
        (Config.Schema.normalize (pyUpper input.name) input.exclude_routines) with
    | error e => rw [h2] at hok; simp at hok
    | ok exc =>
      rw [h2] at hok
      simp only [Except.ok.injEq] at hok
      have hfInc : s.include_routines = inc.include_routines := by rw [← hok]
      have hfP : s.included_packages = pyJoin ", " inc.included_packages := by
        rw [← hok]
      have hfN : s.included_routines_no_pkg =
          pyJoin ", " inc.included_routines_no_pkg := by rw [← hok]
      have hsne : s.include_routines ≠ [] := by rw [hfInc]; exact hne
      have hPN : s.included_packages ≠ "" ∨ s.included_routines_no_pkg ≠ "" := by
        rw [hfP, hfN]
        rcases hdisj with hd | hd
        · exact .inl (pyJoin_ne_empty _ _ hd helems.1)
        · exact .inr (pyJoin_ne_empty _ _ hd helems.2)
      have hfl : (Intro.introspectOneSchemaSql s).1 =
          Intro.introspectOneSchemaSqlList s := rfl
      simp only [hfl]
      unfold Intro.introspectOneSchemaSqlList
      rw [if_pos hsne]
      by_cases hP : s.included_packages = "" <;>
        by_cases hN : s.included_routines_no_pkg = ""
      · exact absurd hPN (by simp [hP, hN])
      · -- no packaged includes, some package-less includes
        simp only [hP, hN, ne_eq, not_true_eq_false, false_and, and_false,
          if_false, not_false_eq_true, true_and, and_true, if_true]
        refine ⟨?_, ?_, ?_⟩
        · constructor
          · intro hmem
            simp only [List.nil_append, List.mem_append, List.mem_cons,
              List.not_mem_nil, or_false] at hmem
            rcases hmem with (h | h) | h
            · exact absurd h (by decide)
            · exact absurd h (head_char_ne with_sql_head (incWithout_head _) (by decide))
            · exact absurd h (by decide)
          · intro hcon; exact absurd hP (by simpa using hcon)
        · simp [hN]
        · right; simp
      · -- some packaged includes, no package-less includes
        simp only [hP, hN, ne_eq, not_true_eq_false, false_and, and_false,
          if_false, not_false_eq_true, true_and, and_true, if_true]
        refine ⟨?_, ?_, ?_⟩
        · simp [hP]
        · constructor
          · intro hmem
            simp only [List.append_nil, List.nil_append, List.mem_append,
              List.mem_cons, List.not_mem_nil, or_false] at hmem
            rcases hmem with (h | h) | h
            · exact absurd h (by decide)
            · exact absurd h (head_char_ne without_sql_head (incFrom_head _) (by decide))
            · exact absurd h (by decide)
          · intro hcon; exact absurd hN (by simpa using hcon)
        · left; simp
      · -- both allow-lists compiled nonempty
        simp only [hP, hN, ne_eq, not_true_eq_false, false_and, and_false,
          if_false, not_false_eq_true, true_and, and_true, if_true]
        refine ⟨?_, ?_, ?_⟩
        · simp [hP]
        · simp [hN]
        · left; simp

/-- Witness for C6 at a schema including `pkg.routine` only: the
with-package branch is emitted, the without-package branch is not. -/
theorem claim_C6_witness :
    (Config.Schema.build ⟨"billing", "", [], [], [], ["pkg.routine"]⟩).toOption.elim
      False
      (fun s =>
        (Intro.INTROSPECTION_WITH_PACKAGE_SQL ∈ (Intro.introspectOneSchemaSql s).1 ↔
          s.included_packages ≠ "") ∧
        (Intro.INTROSPECTION_WITHOUT_PACKAGE_SQL ∈ (Intro.introspectOneSchemaSql s).1 ↔
          s.included_routines_no_pkg ≠ "") ∧
        (Intro.INTROSPECTION_WITH_PACKAGE_SQL ∈ (Intro.introspectOneSchemaSql s).1 ∨
          Intro.INTROSPECTION_WITHOUT_PACKAGE_SQL ∈ (Intro.introspectOneSchemaSql s).1)) := by
  have hisok : (Config.Schema.build ⟨"billing", "", [], [], [], ["pkg.routine"]⟩).isOk = true := by
    decide
  cases hok : Config.Schema.build ⟨"billing", "", [], [], [], ["pkg.routine"]⟩ with
  | error e => rw [hok] at hisok; simp [Except.isOk, Except.toBool] at hisok
  | ok s =>
    simpa [Except.toOption] using
      claim_C6_no_empty_allowlist_branch _ s (by decide) hok

/-! ## Failure semantics of the introspection run -/

/-- C7 (amended): a schema whose fetch raises contributes nothing to the
run — the daemon thread dies before appending its batch and `Thread.join`
drops the exception — so the run completes normally, surfaces no error,
and returns exactly the result of the same run without the failing
schema; the other schemas' batches are untouched. -/
theorem claim_C7_failed_schema_silently_skipped
    (fetch : Config.Schema → Except Intro.DbError (List Intro.RawIntrospectionRow))
    (name : String) (pre post : List Config.Schema)
    (schema : Config.Schema) (e : Intro.DbError)
    (hfail : fetch schema = .error e) :
    Intro.introspection fetch [⟨name, pre ++ schema :: post⟩] =
      Intro.introspection fetch [⟨name, pre ++ post⟩] := by
  simp [Intro.introspection, List.filterMap_append, List.filterMap_cons,
    Intro.introspectOneSchema, hfail]

/-- Witness for C7 at the concrete failing connector. -/
theorem claim_C7_witness :
    Intro.introspection Intro.exampleFetchC7
        [⟨"DB", [Intro.exampleSchemaC7A, Intro.exampleSchemaC7B]⟩] =
      Intro.introspection Intro.exampleFetchC7 [⟨"DB", [Intro.exampleSchemaC7B]⟩] :=
  claim_C7_failed_schema_silently_skipped Intro.exampleFetchC7 "DB" []
    [Intro.exampleSchemaC7B] Intro.exampleSchemaC7A ⟨"ORA-12170: connect timeout"⟩ rfl

/-- Counterexample to C7 as stated: with a connector failing on schema `A`
the whole run does not fail — it returns a normal result in which `A`'s
batch is silently missing and `B`'s batch is intact; no error naming the
schema is surfaced anywhere (the run's type has no error channel). -/
theorem claim_C7_counterexample :
    Intro.introspection Intro.exampleFetchC7
        [⟨"DB", [Intro.exampleSchemaC7A, Intro.exampleSchemaC7B]⟩] =
      [⟨"DB", [⟨"B", "B_NO_PKG", []⟩]⟩] := by
  decide

/-! ## The depth invariant of tree reconstruction -/

namespace IR

/-- Boolean conjunction truth split. -/
theorem and_true_split {a b : Bool} : (a && b) = true ↔ a = true ∧ b = true := by
  simp

/-- The depth invariant splits over an append. -/
theorem argsInvB_append (d : Int) (l1 l2 : List Argument) :
    argsInvB d (l1 ++ l2) = (argsInvB d l1 && argsInvB d l2) := by
  induction l1 with
  | nil => simp [argsInvB]
  | cons a rest ih => simp [argsInvB, ih, Bool.and_assoc]

/-- A member of a depth-coherent list sits at the expected level and is
itself coherent. -/
theorem argsInvB_mem {d : Int} {l : List Argument} {a : Argument}
    (hl : argsInvB d l = true) (ha : a ∈ l) :
    a.data_level = d ∧ argInvB a = true := by
  induction l with
  | nil => cases ha
  | cons x rest ih =>
    simp only [argsInvB, Bool.and_eq_true, beq_iff_eq] at hl
    rcases List.mem_cons.mp ha with h | h
    · subst h; exact ⟨hl.1.1, hl.1.2⟩
    · exact ih hl.2 h

/-- The level of a complex node. -/
theorem data_level_complex (f : ArgFields) (l : List Argument) :
    (Argument.complex f l).data_level = f.data_level := rfl

/-- Coherence of a complex node is coherence of its children one level
down. -/
theorem argInvB_complex (f : ArgFields) (l : List Argument) :
    argInvB (.complex f l) = argsInvB (f.data_level + 1) l := by
  simp [argInvB]

/-- Every argument node has positive size. -/
theorem one_le_sizeOf_argument (a : Argument) : 1 ≤ sizeOf a := by
  cases a <;> simp_arith

/-- Every list has positive size. -/
theorem one_le_sizeOf_list {α} [SizeOf α] (l : List α) : 1 ≤ sizeOf l := by
  cases l <;> simp_arith

/-- The nested dispatch preserves the depth invariant: delivered to a
coherent complex argument sitting strictly above it, the new argument is
woven in with all expected levels intact and the receiving node's own
fields untouched; the list-walking variant does the same for a coherent
child list. Proved by strong induction on the size of the receiver, the
measure of the mutual recursion. -/
theorem dispatch_inv_strong : ∀ n : Nat,
    (∀ (a arg a' : Argument), sizeOf a ≤ n → dispatchInto a arg = .ok a' →
      argInvB a = true → argInvB arg = true →
      a.data_level + 1 ≤ arg.data_level →
      argInvB a' = true ∧ a'.fields = a.fields) ∧
    (∀ (l : List Argument) (d : Int) (arg : Argument) (l' : List Argument),
      sizeOf l ≤ n → dispatchLastAux l arg = .ok l' →
      argsInvB d l = true → argInvB arg = true → d + 1 ≤ arg.data_level →
      argsInvB d l' = true) := by
  intro n
  induction n with
  | zero =>
    constructor
    · intro a arg a' hsz
      exact absurd hsz (by have := one_le_sizeOf_argument a; omega)
    · intro l d arg l' hsz
      exact absurd hsz (by have := one_le_sizeOf_list l; omega)
  | succ n ih =>
    obtain ⟨ihA, ihL⟩ := ih
    constructor
    · intro a arg a' hsz hok hinvA hinvArg hle
      cases a with
      | simple f => simp [dispatchInto] at hok
      | complex f args =>
        simp only [dispatchInto] at hok
        by_cases hgt : arg.data_level > f.data_level + 1
        · rw [if_pos hgt] at hok
          cases hL : dispatchLastAux args arg with
          | error e => rw [hL] at hok; simp at hok
          | ok args' =>
            rw [hL] at hok
            simp only [Except.ok.injEq] at hok
            subst hok
            have hsz' : sizeOf args ≤ n := by
              simp_arith at hsz
              omega
            have hinvArgs : argsInvB (f.data_level + 1) args = true := by
              simpa [argInvB] using hinvA
            have hdl : (Argument.complex f args).data_level = f.data_level := rfl
            have hres := ihL args (f.data_level + 1) arg args' hsz' hL hinvArgs hinvArg
              (by rw [hdl] at hle; omega)
            exact ⟨by simpa [argInvB] using hres, rfl⟩
        · rw [if_neg hgt] at hok
          simp only [Except.ok.injEq] at hok
          subst hok
          have hdl : (Argument.complex f args).data_level = f.data_level := rfl
          have heq : arg.data_level = f.data_level + 1 := by rw [hdl] at hle; omega
          refine ⟨?_, rfl⟩
          have hinvArgs : argsInvB (f.data_level + 1) args = true := by
            simpa [argInvB] using hinvA
          simp only [argInvB, argsInvB_append]
          refine and_true_split.mpr ⟨hinvArgs, ?_⟩
          simp only [argsInvB, Bool.and_eq_true, beq_iff_eq]
          exact ⟨⟨heq, hinvArg⟩, trivial⟩
    · intro l d arg l' hsz hok hinvL hinvArg hle
      cases l with
      | nil => simp [dispatchLastAux] at hok
      | cons x rest =>
        cases rest with
        | nil =>
          cases x with
          | simple f => simp [dispatchLastAux] at hok
          | complex cf cargs =>
            simp only [dispatchLastAux] at hok
            cases hI : dispatchInto (.complex cf cargs) arg with
            | error e => rw [hI] at hok; simp at hok
            | ok newLast =>
              rw [hI] at hok
              simp only [Except.ok.injEq] at hok
              subst hok
              simp only [argsInvB, Bool.and_eq_true, beq_iff_eq] at hinvL
              obtain ⟨⟨hdl, hinvc⟩, -⟩ := hinvL
              have hsz' : sizeOf (Argument.complex cf cargs) ≤ n := by
                simp_arith at hsz
                have := one_le_sizeOf_argument (Argument.complex cf cargs)
                simp_arith at this ⊢
                omega
              have hcd : (Argument.complex cf cargs).data_level = cf.data_level := rfl
              obtain ⟨hinv', hfields⟩ := ihA _ arg newLast hsz' hI hinvc hinvArg
                (by rw [hcd]; rw [hcd] at hdl; omega)
              simp only [argsInvB, Bool.and_eq_true, beq_iff_eq]
              refine ⟨⟨?_, hinv'⟩, trivial⟩
              show newLast.fields.data_level = d
              rw [hfields]
              exact hdl
        | cons y rest2 =>
          simp only [dispatchLastAux] at hok
          cases hR : dispatchLastAux (y :: rest2) arg with
          | error e => rw [hR] at hok; simp at hok
          | ok rest' =>
            rw [hR] at hok
            simp only [Except.ok.injEq] at hok
            subst hok
            simp only [argsInvB, Bool.and_eq_true, beq_iff_eq] at hinvL ⊢
            obtain ⟨hx, htl⟩ := hinvL
            have hsz' : sizeOf (y :: rest2) ≤ n := by
              simp_arith at hsz ⊢
              have := one_le_sizeOf_argument x
              omega
            have htl2 : argsInvB d (y :: rest2) = true := by
              simp only [argsInvB, Bool.and_eq_true, beq_iff_eq]
              exact htl
            exact ⟨hx, ihL (y :: rest2) d arg rest' hsz' hR htl2 hinvArg hle⟩

/-- The routine-level dispatch preserves the depth invariant. -/
theorem routine_dispatch_inv (r : Routine) (arg : Argument) (r' : Routine)
    (hok : r.dispatch_argument arg = .ok r')
    (hr : argsInvB 0 r.arguments = true) (ha : argInvB arg = true)
    (hlev : 0 ≤ arg.data_level) :
    argsInvB 0 r'.arguments = true := by
  unfold Routine.dispatch_argument at hok
  by_cases h0 : arg.data_level = 0
  · rw [if_pos h0] at hok
    simp only [Except.ok.injEq] at hok
    subst hok
    simp only [argsInvB_append]
    refine and_true_split.mpr ⟨hr, ?_⟩
    simp only [argsInvB, Bool.and_eq_true, beq_iff_eq]
    exact ⟨⟨h0, ha⟩, trivial⟩
  · rw [if_neg h0] at hok
    cases hL : dispatchLastAux r.arguments arg with
    | error e => rw [hL] at hok; simp at hok
    | ok args' =>
      rw [hL] at hok
      simp only [Except.ok.injEq] at hok
      subst hok
      exact (dispatch_inv_strong (sizeOf r.arguments)).2 r.arguments 0 arg args'
        (le_refl _) hL hr ha (by omega)

/-- The whole-tree invariant as a statement about its flattened routines. -/
theorem wf_iff (db : Database) :
    db.wf = true ↔ ∀ r ∈ db.routinesOf, argsInvB 0 r.arguments = true := by
  unfold Database.wf Database.routinesOf Schema.routinesOf
  simp only [List.all_eq_true, List.mem_flatten, List.mem_map]
  constructor
  · rintro h r ⟨_, ⟨s, hs, rfl⟩, hr⟩
    rcases List.mem_flatten.mp hr with ⟨_, hpl, hrp⟩
    rcases List.mem_map.mp hpl with ⟨p, hp, rfl⟩
    exact h s hs p hp r hrp
  · intro h s hs p hp r hr
    exact h r ⟨_, ⟨s, hs, rfl⟩, List.mem_flatten.mpr ⟨_, List.mem_map.mpr ⟨p, hp, rfl⟩, hr⟩⟩

/-- The package-level placement appends the routine at the end of the
schema's flattened routine list. -/
theorem routinesOf_schemaAppend (s : Schema) (row : Intro.IntrospectionRow)
    (rt : Routine) :
    (schemaAppend s row rt).routinesOf = s.routinesOf ++ [rt] := by
  unfold schemaAppend
  cases hp : s.packages.getLast? with
  | none =>
    have hnil : s.packages = [] := List.getLast?_eq_none_iff.mp hp
    simp [hnil, Schema.routinesOf]
  | some p =>
    have hdp : s.packages.dropLast ++ [p] = s.packages :=
      List.dropLast_append_getLast? _ (Option.mem_def.mpr hp)
    simp only []
    by_cases hn : row.package = p.name
    · rw [if_pos hn]
      simp only [Schema.routinesOf]
      conv_rhs => rw [← hdp]
      simp [List.map_append, List.flatten_append]
    · rw [if_neg hn]
      simp [Schema.routinesOf, List.map_append, List.flatten_append]

/-- Opening a routine appends it at the end of the database's flattened
routine list. -/
theorem routinesOf_dispatch_routine (db : Database) (row : Intro.IntrospectionRow)
    (rt : Routine) :
    (db.dispatch_routine row rt).routinesOf = db.routinesOf ++ [rt] := by
  unfold Database.dispatch_routine
  cases hs : db.schemes.getLast? with
  | none =>
    have hnil : db.schemes = [] := List.getLast?_eq_none_iff.mp hs
    have hra := routinesOf_schemaAppend ⟨row.schema, []⟩ row rt
    simp only [Schema.routinesOf, List.map_nil, List.flatten_nil,
      List.nil_append] at hra
    simp [hnil, Database.routinesOf, Schema.routinesOf, hra]
  | some s =>
    have hds : db.schemes.dropLast ++ [s] = db.schemes :=
      List.dropLast_append_getLast? _ (Option.mem_def.mpr hs)
    simp only []
    by_cases hn : row.schema = s.name
    · rw [if_pos hn]
      simp only [Database.routinesOf]
      conv_rhs => rw [← hds]
      simp [List.map_append, List.flatten_append, routinesOf_schemaAppend]
    · rw [if_neg hn]
      have hra := routinesOf_schemaAppend ⟨row.schema, []⟩ row rt
      simp only [Schema.routinesOf, List.map_nil, List.flatten_nil,
        List.nil_append] at hra
      simp [Database.routinesOf, List.map_append, List.flatten_append,
        Schema.routinesOf, hra]

/-- The witness of a `getLast?` is a member of the list. -/
theorem mem_of_getLast?_eq {α} {l : List α} {a : α} (h : l.getLast? = some a) :
    a ∈ l := by
  obtain ⟨hne, heq⟩ := List.mem_getLast?_eq_getLast (Option.mem_def.mpr h)
  exact heq ▸ List.getLast_mem hne

/-- `all` restricts to the list without its last element. -/
theorem all_dropLast {α} (p : α → Bool) (l : List α) (h : l.all p = true) :
    l.dropLast.all p = true := by
  simp only [List.all_eq_true] at h ⊢
  exact fun a ha => h a (List.dropLast_subset _ ha)

/-- The invariant of a routine found inside a well-formed tree. -/
theorem wf_routine {db : Database} {s : Schema} {p : Package} {r : Routine}
    (hwf : db.wf = true) (hs : s ∈ db.schemes) (hp : p ∈ s.packages)
    (hr : r ∈ p.routines) : argsInvB 0 r.arguments = true := by
  unfold Database.wf at hwf
  simp only [List.all_eq_true] at hwf
  exact hwf s hs p hp r hr

/-- Dispatching into the current routine preserves the whole-tree depth
invariant. -/
theorem dispatchIntoLastRoutine_wf (db db' : Database) (arg : Argument)
    (hok : db.dispatchIntoLastRoutine arg = .ok db')
    (hwf : db.wf = true) (ha : argInvB arg = true) (hlev : 0 ≤ arg.data_level) :
    db'.wf = true := by
  unfold Database.dispatchIntoLastRoutine at hok
  cases hs : db.schemes.getLast? with
  | none => rw [hs] at hok; simp only [Except.ok.injEq] at hok; exact hok ▸ hwf
  | some s =>
    rw [hs] at hok
    simp only [] at hok
    cases hp : s.packages.getLast? with
    | none => rw [hp] at hok; simp only [Except.ok.injEq] at hok; exact hok ▸ hwf
    | some p =>
      rw [hp] at hok
      simp only [] at hok
      cases hr : p.routines.getLast? with
      | none => rw [hr] at hok; simp only [Except.ok.injEq] at hok; exact hok ▸ hwf
      | some r =>
        rw [hr] at hok
        simp only [] at hok
        cases hdisp : r.dispatch_argument arg with
        | error e => rw [hdisp] at hok; simp at hok
        | ok r1 =>
          rw [hdisp] at hok
          simp only [Except.ok.injEq] at hok
          subst hok
          have hsm : s ∈ db.schemes := mem_of_getLast?_eq hs
          have hpm : p ∈ s.packages := mem_of_getLast?_eq hp
          have hrm : r ∈ p.routines := mem_of_getLast?_eq hr
          have hrinv := wf_routine hwf hsm hpm hrm
          have hr1 := routine_dispatch_inv r arg r1 hdisp hrinv ha hlev
          unfold Database.wf at hwf ⊢
          simp only [List.all_eq_true] at hwf
          simp only [List.all_append, List.all_eq_true, Bool.and_eq_true]
          constructor
          · intro s2 hs2 p2 hp2 r2 hr2
            exact hwf s2 (List.dropLast_subset _ hs2) p2 hp2 r2 hr2
          · intro s2 hs2
            rw [List.mem_singleton.mp hs2]
            intro p2 hp2 r2 hr2
            rcases List.mem_append.mp hp2 with h | h
            · exact hwf s hsm p2 (List.dropLast_subset _ h) r2 hr2
            · rw [List.mem_singleton.mp h] at hr2
              rcases List.mem_append.mp hr2 with h2 | h2
              · exact hwf s hsm p hpm r2 (List.dropLast_subset _ h2)
              · rw [List.mem_singleton.mp h2]
                exact hr1

/-- Opening a routine preserves the whole-tree invariant (the new routine
has no arguments yet). -/
theorem dispatch_routine_wf (db : Database) (row : Intro.IntrospectionRow)
    (rt : Routine) (hwf : db.wf = true) (hrt : argsInvB 0 rt.arguments = true) :
    (db.dispatch_routine row rt).wf = true := by
  rw [wf_iff] at hwf ⊢
  rw [routinesOf_dispatch_routine]
  intro r hr
  rcases List.mem_append.mp hr with h | h
  · exact hwf r h
  · rw [List.mem_singleton.mp h]
    exact hrt

/-- The argument made from a row is internally depth-coherent (a simple
node, or a complex node with no children yet). -/
theorem rowArgument_inv (row : Intro.IntrospectionRow) :
    argInvB (if row.data_type ∉ Intro.COMPLEX_TYPES then
      Argument.simple (ArgFields.from_row row)
    else Argument.complex (ArgFields.from_row row) []) = true := by
  split <;> simp [argInvB, argsInvB]

/-- The argument made from a row sits at the row's data level. -/
theorem rowArgument_level (row : Intro.IntrospectionRow) :
    (if row.data_type ∉ Intro.COMPLEX_TYPES then
      Argument.simple (ArgFields.from_row row)
    else Argument.complex (ArgFields.from_row row) []).data_level =
      row.data_level := by
  split <;> rfl

/-- One row step preserves the whole-tree depth invariant. -/
theorem processRow_wf (st st' : BuildState) (row : Intro.IntrospectionRow)
    (hok : processRow st row = .ok st')
    (hwf : st.database.wf = true) (hlev : 0 ≤ row.data_level) :
    st'.database.wf = true := by
  unfold processRow at hok
  simp only [] at hok
  have hargInv := rowArgument_inv row
  have hargLev := rowArgument_level row
  by_cases hsent : st.oid ≠ some row.object_id ∨ st.sid ≠ some row.subprogram_id
  · rw [if_pos hsent] at hok
    cases hd : (st.database.dispatch_routine row (Routine.from_row row)).dispatchIntoLastRoutine
        (if row.data_type ∉ Intro.COMPLEX_TYPES then
          Argument.simple (ArgFields.from_row row)
        else Argument.complex (ArgFields.from_row row) []) with
    | error e => rw [hd] at hok; simp at hok
    | ok db1 =>
      rw [hd] at hok
      simp only [Except.ok.injEq] at hok
      have hwf1 : (st.database.dispatch_routine row (Routine.from_row row)).wf = true :=
        dispatch_routine_wf _ _ _ hwf (by simp [Routine.from_row, argsInvB])
      have := dispatchIntoLastRoutine_wf _ _ _ hd hwf1 hargInv (by rw [hargLev]; exact hlev)
      rw [← hok]
      exact this
  · rw [if_neg hsent] at hok
    cases hd : st.database.dispatchIntoLastRoutine
        (if row.data_type ∉ Intro.COMPLEX_TYPES then
          Argument.simple (ArgFields.from_row row)
        else Argument.complex (ArgFields.from_row row) []) with
    | error e => rw [hd] at hok; simp at hok
    | ok db1 =>
      rw [hd] at hok
      simp only [Except.ok.injEq] at hok
      have := dispatchIntoLastRoutine_wf _ _ _ hd hwf hargInv (by rw [hargLev]; exact hlev)
      rw [← hok]
      exact this

/-- The row loop preserves the whole-tree depth invariant. -/
theorem processRows_wf :
    ∀ (rows : List Intro.IntrospectionRow) (st st' : BuildState),
      processRows st rows = .ok st' →
      st.database.wf = true → (∀ row ∈ rows, 0 ≤ row.data_level) →
      st'.database.wf = true := by
  intro rows
  induction rows with
  | nil =>
    intro st st' hok hwf _
    simp only [processRows] at hok
    cases hok
    exact hwf
  | cons row rest ih =>
    intro st st' hok hwf hlev
    cases h1 : processRow st row with
    | error e => simp [processRows, h1] at hok
    | ok st1 =>
      simp only [processRows, h1] at hok
      exact ih st1 st' hok (processRow_wf st st1 row h1 hwf (hlev row (by simp)))
        (fun r hr => hlev r (by simp [hr]))

/-- The schema loop preserves the whole-tree depth invariant. -/
theorem processSchemas_wf :
    ∀ (schemas : List Intro.IntrospectionSchema) (st st' : BuildState),
      processSchemas st schemas = .ok st' →
      st.database.wf = true →
      (∀ s ∈ schemas, ∀ row ∈ s.rows, 0 ≤ row.data_level) →
      st'.database.wf = true := by
  intro schemas
  induction schemas with
  | nil =>
    intro st st' hok hwf _
    simp only [processSchemas] at hok
    cases hok
    exact hwf
  | cons schema rest ih =>
    intro st st' hok hwf hlev
    cases h1 : processRows st schema.rows with
    | error e => simp [processSchemas, h1] at hok
    | ok st1 =>
      simp only [processSchemas, h1] at hok
      exact ih st1 st' hok
        (processRows_wf schema.rows st st1 h1 hwf (fun r hr => hlev schema (by simp) r hr))
        (fun s hs row hr => hlev s (by simp [hs]) row hr)

/-- Building one database yields a depth-coherent tree. -/
theorem buildDatabase_wf (introspected : Intro.IntrospectionDatabase)
    (db : Database) (hok : buildDatabase introspected = .ok db)
    (hlev : ∀ s ∈ introspected.schemes, ∀ row ∈ s.rows, 0 ≤ row.data_level) :
    db.wf = true := by
  unfold buildDatabase at hok
  cases h1 : processSchemas ⟨Database.new introspected.name, none, none⟩
      introspected.schemes with
  | error e => rw [h1] at hok; simp at hok
  | ok st =>
    rw [h1] at hok
    simp only [Except.ok.injEq] at hok
    have := processSchemas_wf _ _ _ h1 (by simp [Database.new, Database.wf]) hlev
    rw [← hok]
    exact this

end IR

/-- C2: in every tree produced by reconstruction without error from rows
with non-negative nesting depth (the data model's invariant on
`data_level`), every immediate argument of a routine has data level 0,
and every child of a complex argument has data level one more than its
parent — no argument node skips an intermediate level. -/
theorem claim_C2_depth_invariant (intro : List Intro.IntrospectionDatabase)
    (irdbs : List IR.Database)
    (hlev : ∀ d ∈ intro, ∀ s ∈ d.schemes, ∀ row ∈ s.rows, 0 ≤ row.data_level)
    (hok : IR.intermediate_representation intro = .ok irdbs) :
    ∀ db ∈ irdbs, db.wf = true := by
  induction intro generalizing irdbs with
  | nil =>
    simp only [IR.intermediate_representation, Except.ok.injEq] at hok
    subst hok
    simp
  | cons d rest ih =>
    cases h1 : IR.buildDatabase d with
    | error e => simp [IR.intermediate_representation, h1] at hok
    | ok db1 =>
      cases h2 : IR.intermediate_representation rest with
      | error e => simp [IR.intermediate_representation, h1, h2] at hok
      | ok dbs =>
        simp only [IR.intermediate_representation, h1, h2, Except.ok.injEq] at hok
        subst hok
        intro db hdb
        rcases List.mem_cons.mp hdb with h | h
        · subst h
          exact IR.buildDatabase_wf d db h1 (hlev d (by simp))
        · exact ih dbs (fun d2 hd2 s hs row hr => hlev d2 (by simp [hd2]) s hs row hr)
            h2 db h

/-- Witness for C2 at a concrete nested batch (a depth-0 table argument
holding a depth-1 scalar member). -/
theorem claim_C2_witness :
    (∀ d ∈ Intro.exampleIntroNested, ∀ s ∈ d.schemes, ∀ row ∈ s.rows,
      0 ≤ row.data_level) ∧
    (∀ db ∈ (IR.intermediate_representation Intro.exampleIntroNested).toOption.getD [],
      db.wf = true) :=
  ⟨by decide,
   claim_C2_depth_invariant Intro.exampleIntroNested
     ((IR.intermediate_representation Intro.exampleIntroNested).toOption.getD [])
     (by decide) (by rfl)⟩

/-! ## Dispatch failure behaviour -/

namespace IR

/-- Node counting splits over an append. -/
theorem countArgs_append (l1 l2 : List Argument) :
    countArgs (l1 ++ l2) = countArgs l1 + countArgs l2 := by
  induction l1 with
  | nil => simp [countArgs]
  | cons a rest ih => simp [countArgs, ih]; omega

/-- A successful dispatch adds exactly the dispatched argument's nodes:
nothing is dropped and nothing else is duplicated. Strong induction on
the receiver's size, the measure of the mutual recursion. -/
theorem dispatch_count_strong : ∀ n : Nat,
    (∀ (a arg a' : Argument), sizeOf a ≤ n → dispatchInto a arg = .ok a' →
      countArg a' = countArg a + countArg arg) ∧
    (∀ (l : List Argument) (arg : Argument) (l' : List Argument),
      sizeOf l ≤ n → dispatchLastAux l arg = .ok l' →
      countArgs l' = countArgs l + countArg arg) := by
  intro n
  induction n with
  | zero =>
    constructor
    · intro a arg a' hsz
      exact absurd hsz (by have := one_le_sizeOf_argument a; omega)
    · intro l arg l' hsz
      exact absurd hsz (by have := one_le_sizeOf_list l; omega)
  | succ n ih =>
    obtain ⟨ihA, ihL⟩ := ih
    constructor
    · intro a arg a' hsz hok
      cases a with
      | simple f => simp [dispatchInto] at hok
      | complex f args =>
        simp only [dispatchInto] at hok
        by_cases hgt : arg.data_level > f.data_level + 1
        · rw [if_pos hgt] at hok
          cases hL : dispatchLastAux args arg with
          | error e => rw [hL] at hok; simp at hok
          | ok args' =>
            rw [hL] at hok
            simp only [Except.ok.injEq] at hok
            subst hok
            have hsz' : sizeOf args ≤ n := by simp_arith at hsz; omega
            have hcount := ihL args arg args' hsz' hL
            simp [countArg, hcount]
            omega
        · rw [if_neg hgt] at hok
          simp only [Except.ok.injEq] at hok
          subst hok
          simp [countArg, countArgs_append, countArgs]
          omega
    · intro l arg l' hsz hok
      cases l with
      | nil => simp [dispatchLastAux] at hok
      | cons x rest =>
        cases rest with
        | nil =>
          cases x with
          | simple f => simp [dispatchLastAux] at hok
          | complex cf cargs =>
            simp only [dispatchLastAux] at hok
            cases hI : dispatchInto (.complex cf cargs) arg with
            | error e => rw [hI] at hok; simp at hok
            | ok newLast =>
              rw [hI] at hok
              simp only [Except.ok.injEq] at hok
              subst hok
              have hsz' : sizeOf (Argument.complex cf cargs) ≤ n := by
                simp_arith at hsz ⊢
                omega
              have hcount := ihA _ arg newLast hsz' hI
              simp [countArgs, hcount]
        | cons y rest2 =>
          simp only [dispatchLastAux] at hok
          cases hR : dispatchLastAux (y :: rest2) arg with
          | error e => rw [hR] at hok; simp at hok
          | ok rest' =>
            rw [hR] at hok
            simp only [Except.ok.injEq] at hok
            subst hok
            have hsz' : sizeOf (y :: rest2) ≤ n := by
              simp_arith at hsz ⊢
              have := one_le_sizeOf_argument x
              omega
            have hcount := ihL (y :: rest2) arg rest' hsz' hR
            simp [countArgs, hcount]
            omega

/-- A successful routine-level dispatch adds exactly the argument's
nodes. -/
theorem routine_dispatch_count (r : Routine) (arg : Argument) (r' : Routine)
    (hok : r.dispatch_argument arg = .ok r') :
    countArgs r'.arguments = countArgs r.arguments + countArg arg := by
  unfold Routine.dispatch_argument at hok
  by_cases h0 : arg.data_level = 0
  · rw [if_pos h0] at hok
    simp only [Except.ok.injEq] at hok
    subst hok
    simp [countArgs_append, countArgs]
  · rw [if_neg h0] at hok
    cases hL : dispatchLastAux r.arguments arg with
    | error e => rw [hL] at hok; simp at hok
    | ok args' =>
      rw [hL] at hok
      simp only [Except.ok.injEq] at hok
      subst hok
      exact (dispatch_count_strong (sizeOf r.arguments)).2 _ _ _ (le_refl _) hL

end IR

/-- C9 (amended): a row whose depth cannot be reconciled with the current
structural-argument chain makes the dispatch raise a builder error
(`TypeError`/`IndexError`) — the row is never silently dropped and never
appended at a wrong depth: whenever the dispatch succeeds instead, the
routine gains exactly the dispatched argument's nodes and the depth
invariant still holds. The raised error, however, is a constant value
that identifies neither the routine nor the position (see the
counterexample). -/
theorem claim_C9_unreconcilable_depth_errors (r : IR.Routine) (arg : IR.Argument)
    (hr : IR.argsInvB 0 r.arguments = true) (ha : IR.argInvB arg = true)
    (hlev : 0 ≤ arg.data_level) :
    (∃ e, r.dispatch_argument arg = .error e) ∨
    (∃ r', r.dispatch_argument arg = .ok r' ∧
      IR.countArgs r'.arguments = IR.countArgs r.arguments + IR.countArg arg ∧
      IR.argsInvB 0 r'.arguments = true) := by
  cases h : r.dispatch_argument arg with
  | error e => exact .inl ⟨e, rfl⟩
  | ok r' =>
    exact .inr ⟨r', rfl, IR.routine_dispatch_count r arg r' h,
      IR.routine_dispatch_inv r arg r' h hr ha hlev⟩

/-- Witness for C9: dispatching a depth-1 argument into a routine that has
no arguments yet. -/
theorem claim_C9_witness :
    (∃ e, IR.exampleRoutineC9.dispatch_argument IR.exampleArgC9 = .error e) ∨
    (∃ r', IR.exampleRoutineC9.dispatch_argument IR.exampleArgC9 = .ok r' ∧
      IR.countArgs r'.arguments =
        IR.countArgs IR.exampleRoutineC9.arguments + IR.countArg IR.exampleArgC9 ∧
      IR.argsInvB 0 r'.arguments = true) :=
  claim_C9_unreconcilable_depth_errors IR.exampleRoutineC9 IR.exampleArgC9
    (by decide) (by decide) (by decide)

/-- Counterexample to C9 as stated: two batches failing on rows with
different routines (`a` versus `b`) and different positions (5 versus 7)
abort reconstruction with the very same error value, so the raised error
identifies neither the offending row's routine FQDN nor its position. -/
theorem claim_C9_counterexample :
    IR.intermediate_representation Intro.exampleIntroBadA =
      .error .indexError ∧
    IR.intermediate_representation Intro.exampleIntroBadB =
      .error .indexError ∧
    Intro.exampleIntroBadA ≠ Intro.exampleIntroBadB := by
  refine ⟨rfl, rfl, by decide⟩

namespace IR

/-- Flattening the sentinel groups gives back the open group followed by
the remaining rows. -/
theorem pairGroupsAux_flatten :
    ∀ (rest : List Intro.IntrospectionRow) (prev : Intro.IntrospectionRow)
      (cur : List Intro.IntrospectionRow),
      (pairGroupsAux prev cur rest).flatten = cur ++ rest := by
  intro rest
  induction rest with
  | nil => intro prev cur; simp [pairGroupsAux]
  | cons r rest2 ih =>
    intro prev cur
    by_cases h : pairOf prev = pairOf r
    · simp only [pairGroupsAux, if_pos h]
      rw [ih r (cur ++ [r])]
      simp
    · simp only [pairGroupsAux, if_neg h]
      simp [List.flatten_cons, ih r [r]]

/-- Every group emitted by the sentinel grouping is pair-coherent. -/
theorem pairGroupsAux_coherent :
    ∀ (rest : List Intro.IntrospectionRow) (prev : Intro.IntrospectionRow)
      (cur : List Intro.IntrospectionRow),
      groupCoherent cur → headPairOf cur = some (pairOf prev) →
      ∀ g ∈ pairGroupsAux prev cur rest, groupCoherent g := by
  intro rest
  induction rest with
  | nil =>
    intro prev cur hcoh _ g hg
    simp only [pairGroupsAux, List.mem_singleton] at hg
    exact hg ▸ hcoh
  | cons r rest2 ih =>
    intro prev cur hcoh hhead g hg
    by_cases h : pairOf prev = pairOf r
    · simp only [pairGroupsAux, if_pos h] at hg
      have hne : cur ≠ [] := by
        intro hnil; rw [hnil] at hhead; simp [headPairOf] at hhead
      have hhead2 : headPairOf (cur ++ [r]) = some (pairOf r) := by
        rw [headPairOf, List.head?_append_of_ne_nil cur hne]
        rw [headPairOf] at hhead
        rw [hhead, h]
      refine ih r (cur ++ [r]) ?_ hhead2 g hg
      intro x hx
      rcases List.mem_append.mp hx with hx | hx
      · have hx2 : pairOf x = pairOf prev :=
          Option.some_inj.mp ((hcoh x hx).symm.trans hhead)
        rw [hhead2]
        exact congrArg some ((hx2.trans h).symm)
      · rw [List.mem_singleton.mp hx, hhead2]
    · simp only [pairGroupsAux, if_neg h, List.mem_cons] at hg
      rcases hg with rfl | hg
      · exact hcoh
      · refine ih r [r] ?_ rfl g hg
        intro x hx
        rw [List.mem_singleton.mp hx]
        rfl

/-- Package-determination restricts to the tail of a batch. -/
theorem packageDetermined_tail {a : Intro.IntrospectionRow}
    {l : List Intro.IntrospectionRow} (h : packageDetermined (a :: l)) :
    packageDetermined l :=
  fun x hx y hy => h x (List.mem_cons_of_mem a hx) y (List.mem_cons_of_mem a hy)

/-- Sandwich property of the query ordering: a row strictly between two
rows that share their package and identifying pair carries that same
pair. -/
theorem rowKey_sandwich {a b c : Intro.IntrospectionRow}
    (hab : rowKeyLt a b) (hbc : rowKeyLt b c)
    (hpkg : a.package = c.package) (hoid : a.object_id = c.object_id)
    (hsid : a.subprogram_id = c.subprogram_id) :
    pairOf b = pairOf a := by
  have hirr : ∀ s : String, ¬ strLt s s := fun s => lt_irrefl s.data
  rcases hab with hab | ⟨hpab, hab⟩
  · rcases hbc with hbc | ⟨hpbc, hbc⟩
    · have : strLt a.package c.package := lt_trans hab hbc
      rw [hpkg] at this
      exact absurd this (hirr _)
    · rw [hpbc, ← hpkg] at hab
      exact absurd hab (hirr _)
  · rcases hbc with hbc | ⟨hpbc, hbc⟩
    · rw [← hpab, hpkg] at hbc
      exact absurd hbc (hirr _)
    · simp only [pairOf, Prod.mk.injEq]
      omega

/-- Under the strict query ordering and package-determined pairs, the
emitted groups carry pairwise distinct head pairs, each of them the pair
of one of the processed rows. -/
theorem pairGroupsAux_heads :
    ∀ (rest : List Intro.IntrospectionRow) (prev : Intro.IntrospectionRow)
      (cur : List Intro.IntrospectionRow),
      headPairOf cur = some (pairOf prev) →
      List.Pairwise rowKeyLt (prev :: rest) →
      packageDetermined (prev :: rest) →
      ((pairGroupsAux prev cur rest).map headPairOf).Nodup ∧
      ∀ q ∈ (pairGroupsAux prev cur rest).map headPairOf,
        ∃ z ∈ prev :: rest, q = some (pairOf z) := by
  intro rest
  induction rest with
  | nil =>
    intro prev cur hhead _ _
    constructor
    · simp [pairGroupsAux]
    · intro q hq
      simp only [pairGroupsAux, List.map_cons, List.map_nil,
        List.mem_singleton] at hq
      exact ⟨prev, by simp, hq.trans hhead⟩
  | cons r rest2 ih =>
    intro prev cur hhead hsort hpkg
    have hsort2 : List.Pairwise rowKeyLt (r :: rest2) := hsort.of_cons
    have hpkg2 : packageDetermined (r :: rest2) := packageDetermined_tail hpkg
    by_cases h : pairOf prev = pairOf r
    · simp only [pairGroupsAux, if_pos h]
      have hne : cur ≠ [] := by
        intro hnil; rw [hnil] at hhead; simp [headPairOf] at hhead
      have hhead2 : headPairOf (cur ++ [r]) = some (pairOf r) := by
        rw [headPairOf, List.head?_append_of_ne_nil cur hne]
        rw [headPairOf] at hhead
        rw [hhead, h]
      obtain ⟨hnd, hmem⟩ := ih r (cur ++ [r]) hhead2 hsort2 hpkg2
      refine ⟨hnd, ?_⟩
      intro q hq
      obtain ⟨z, hz, hq2⟩ := hmem q hq
      rcases List.mem_cons.mp hz with heq | hz
      · exact ⟨r, by simp, heq ▸ hq2⟩
      · exact ⟨z, by simp [hz], hq2⟩
    · simp only [pairGroupsAux, if_neg h, List.map_cons]
      obtain ⟨hnd, hmem⟩ := ih r [r] rfl hsort2 hpkg2
      have hnotmem : headPairOf cur ∉
          (pairGroupsAux r [r] rest2).map headPairOf := by
        intro hin
        obtain ⟨z, hz, hq2⟩ := hmem _ hin
        have hzp : pairOf z = pairOf prev :=
          (Option.some_inj.mp (hhead.symm.trans hq2)).symm
        rcases List.mem_cons.mp hz with heq | hz2
        · exact h (heq ▸ hzp).symm
        · have hab : rowKeyLt prev r := (List.pairwise_cons.mp hsort).1 r (by simp)
          have hbc : rowKeyLt r z := (List.pairwise_cons.mp hsort2).1 z hz2
          have hpac : prev.package = z.package :=
            hpkg prev (by simp) z (by simp [hz2]) hzp.symm
          have hoid : prev.object_id = z.object_id := congrArg Prod.fst hzp.symm
          have hsid : prev.subprogram_id = z.subprogram_id := congrArg Prod.snd hzp.symm
          exact h (rowKey_sandwich hab hbc hpac hoid hsid).symm
      constructor
      · exact List.nodup_cons.mpr ⟨hnotmem, hnd⟩
      · intro q hq
        rcases List.mem_cons.mp hq with rfl | hq2
        · exact ⟨prev, by simp, hhead⟩
        · obtain ⟨z, hz, hq3⟩ := hmem q hq2
          rcases List.mem_cons.mp hz with heq | hz2
          · exact ⟨r, by simp, heq ▸ hq3⟩
          · exact ⟨z, by simp [hz2], hq3⟩

/-- The sentinel groups of a batch partition it back into the batch. -/
theorem pairGroups_flatten (rows : List Intro.IntrospectionRow) :
    (pairGroups rows).flatten = rows := by
  cases rows with
  | nil => rfl
  | cons r rest => simp [pairGroups, pairGroupsAux_flatten]

/-- Every sentinel group of a batch is pair-coherent. -/
theorem pairGroups_coherent (rows : List Intro.IntrospectionRow) :
    ∀ g ∈ pairGroups rows, groupCoherent g := by
  cases rows with
  | nil => intro g hg; simp [pairGroups] at hg
  | cons r rest =>
    refine pairGroupsAux_coherent rest r [r] ?_ rfl
    intro x hx
    rw [List.mem_singleton.mp hx]
    rfl

/-- Under the strict query ordering with package-determined pairs, the
sentinel groups carry pairwise distinct head pairs. -/
theorem pairGroups_heads_nodup (rows : List Intro.IntrospectionRow)
    (hsort : strictlyOrdered rows) (hpkg : packageDetermined rows) :
    ((pairGroups rows).map headPairOf).Nodup := by
  cases rows with
  | nil => simp [pairGroups]
  | cons r rest => exact (pairGroupsAux_heads rest r [r] rfl hsort hpkg).1

/-- Filtering the flattened groups by the head pair of one group (and any
further predicate) selects exactly that group, when head pairs are
pairwise distinct and every group is coherent. -/
theorem filter_flatten_groups :
    ∀ (groups : List (List Intro.IntrospectionRow)) (q : Int × Int)
      (g : List Intro.IntrospectionRow) (extra : Intro.IntrospectionRow → Bool),
      (∀ g2 ∈ groups, groupCoherent g2) →
      (groups.map headPairOf).Nodup →
      g ∈ groups → headPairOf g = some q →
      groups.flatten.filter (fun row => pairOf row == q && extra row) =
        g.filter extra := by
  intro groups
  induction groups with
  | nil => intro q g extra _ _ hg _; simp at hg
  | cons g0 gs ih =>
    intro q g extra hcoh hnd hg hq
    rw [List.flatten_cons, List.filter_append]
    rcases List.mem_cons.mp hg with heq | hg2
    · rw [heq] at hq ⊢
      have h1 : g0.filter (fun row => pairOf row == q && extra row) =
          g0.filter extra := by
        apply List.filter_congr
        intro x hx
        have hxq : pairOf x = q :=
          (Option.some_inj.mp (hq.symm.trans (hcoh g0 (by simp) x hx))).symm
        simp [hxq]
      have h2 : gs.flatten.filter (fun row => pairOf row == q && extra row) = [] := by
        rw [List.filter_eq_nil_iff]
        intro x hx
        obtain ⟨g2, hg3, hxg2⟩ := List.mem_flatten.mp hx
        have hco2 := hcoh g2 (by simp [hg3]) x hxg2
        have hnotin : headPairOf g0 ∉ gs.map headPairOf := (List.nodup_cons.mp hnd).1
        have hne : headPairOf g2 ≠ some q := by
          intro heq
          have hin : headPairOf g2 ∈ gs.map headPairOf :=
            List.mem_map_of_mem _ hg3
          rw [heq, ← hq] at hin
          exact hnotin hin
        have hxne : pairOf x ≠ q := by
          intro hxq
          exact hne (hco2.trans (by rw [hxq]))
        simp [hxne]
      rw [h1, h2, List.append_nil]
    · have h0 : g0.filter (fun row => pairOf row == q && extra row) = [] := by
        rw [List.filter_eq_nil_iff]
        intro x hx
        have hco0 := hcoh g0 (by simp) x hx
        have hnotin : headPairOf g0 ∉ gs.map headPairOf := (List.nodup_cons.mp hnd).1
        have hne : headPairOf g0 ≠ some q := by
          intro heq
          have hin : headPairOf g ∈ gs.map headPairOf :=
            List.mem_map_of_mem _ hg2
          rw [hq, ← heq] at hin
          exact hnotin hin
        have hxne : pairOf x ≠ q := by
          intro hxq
          exact hne (hco0.trans (by rw [hxq]))
        simp [hxne]
      rw [h0, List.nil_append]
      exact ih q g extra (fun g2 hg3 => hcoh g2 (by simp [hg3]))
        (List.nodup_cons.mp hnd).2 hg2 hq

/-- A left member of a pointwise correspondence has a right partner. -/
theorem forall2_mem_left {α β : Type} {R : α → β → Prop} :
    ∀ {l1 : List α} {l2 : List β}, List.Forall₂ R l1 l2 →
      ∀ a ∈ l1, ∃ b ∈ l2, R a b := by
  intro l1 l2 h
  induction h with
  | nil => intro a ha; simp at ha
  | cons hr _ ih =>
    intro a ha
    rcases List.mem_cons.mp ha with rfl | ha2
    · exact ⟨_, by simp, hr⟩
    · obtain ⟨b, hb, hrb⟩ := ih a ha2
      exact ⟨b, by simp [hb], hrb⟩

/-- Under a routine-to-group correspondence, the number of routines
carrying a pair equals the number of groups headed by it. -/
theorem length_filter_forall2 :
    ∀ {routines : List Routine} {groups : List (List Intro.IntrospectionRow)},
      List.Forall₂ routineMatchesGroup routines groups →
      ∀ oid sid : Int,
        (routines.filter fun r =>
            r.object_id == oid && r.subprogram_id == sid).length =
        groups.countP (fun g => headPairOf g == some (oid, sid)) := by
  intro routines groups h
  induction h with
  | nil => intro oid sid; simp
  | @cons r g l1 l2 hr htail ih =>
    intro oid sid
    have hh : headPairOf g = some (r.object_id, r.subprogram_id) := hr.1
    have hpred : (r.object_id == oid && r.subprogram_id == sid) =
        (headPairOf g == some (oid, sid)) := by
      rw [hh]
      rfl
    simp only [List.filter_cons, List.countP_cons]
    by_cases hb : (r.object_id == oid && r.subprogram_id == sid) = true
    · rw [if_pos hb, if_pos (by rw [← hpred]; exact hb)]
      simp [ih oid sid]
    · rw [if_neg hb, if_neg (by rw [← hpred]; exact hb)]
      simpa using ih oid sid

/-- In a duplicate-free list, exactly one entry equals a given member. -/
theorem countP_eq_one_opt :
    ∀ (l : List (Option (Int × Int))) (a : Option (Int × Int)),
      l.Nodup → a ∈ l → l.countP (· == a) = 1 := by
  intro l
  induction l with
  | nil => intro a _ h; simp at h
  | cons x xs ih =>
    intro a hnd hmem
    rw [List.countP_cons]
    rcases List.mem_cons.mp hmem with heq | hmem2
    · have hnotin : a ∉ xs := heq ▸ (List.nodup_cons.mp hnd).1
      have h0 : xs.countP (· == a) = 0 := by
        rw [List.countP_eq_zero]
        intro b hb
        simp only [beq_iff_eq]
        intro hba
        exact hnotin (hba ▸ hb)
      rw [h0, if_pos (by simp [heq])]
    · have hne : x ≠ a := by
        intro hxa
        exact (List.nodup_cons.mp hnd).1 (hxa ▸ hmem2)
      rw [if_neg (by simp [hne]), ih a (List.nodup_cons.mp hnd).2 hmem2]

/-- A pair heading some group heads exactly one group of a strictly
ordered, package-determined batch. -/
theorem countP_heads_eq_one {rows : List Intro.IntrospectionRow} {q : Int × Int}
    (hsort : strictlyOrdered rows) (hpkg : packageDetermined rows)
    (hmem : some q ∈ (pairGroups rows).map headPairOf) :
    (pairGroups rows).countP (fun g => headPairOf g == some q) = 1 := by
  have hnd := pairGroups_heads_nodup rows hsort hpkg
  have h1 : ((pairGroups rows).map headPairOf).countP (· == some q) =
      (pairGroups rows).countP (fun g => headPairOf g == some q) :=
    List.countP_map _ _ _
  rw [← h1]
  exact countP_eq_one_opt _ _ hnd hmem

/-- A successful dispatch into a complex node keeps its flat fields. -/
theorem dispatchInto_shape (f : ArgFields) (args : List Argument)
    (arg a2 : Argument) (hok : dispatchInto (.complex f args) arg = .ok a2) :
    ∃ args2, a2 = .complex f args2 := by
  simp only [dispatchInto] at hok
  by_cases hgt : arg.data_level > f.data_level + 1
  · rw [if_pos hgt] at hok
    cases haux : dispatchLastAux args arg with
    | error e => rw [haux] at hok; simp at hok
    | ok args2 =>
      rw [haux] at hok
      simp only [Except.ok.injEq] at hok
      exact ⟨args2, hok.symm⟩
  · rw [if_neg hgt] at hok
    simp only [Except.ok.injEq] at hok
    exact ⟨args ++ [arg], hok.symm⟩

/-- A successful delegated dispatch keeps the flat fields of every
top-level argument of the list it walked into. -/
theorem dispatchLastAux_fields :
    ∀ (l : List Argument) (arg : Argument) (l2 : List Argument),
      dispatchLastAux l arg = .ok l2 →
      l2.map Argument.fields = l.map Argument.fields := by
  intro l
  induction l with
  | nil => intro arg l2 hok; simp [dispatchLastAux] at hok
  | cons x xs ih =>
    intro arg l2 hok
    cases xs with
    | nil =>
      cases x with
      | simple f => simp [dispatchLastAux] at hok
      | complex cf cargs =>
        simp only [dispatchLastAux] at hok
        cases hd : dispatchInto (.complex cf cargs) arg with
        | error e => rw [hd] at hok; simp at hok
        | ok newLast =>
          rw [hd] at hok
          simp only [Except.ok.injEq] at hok
          obtain ⟨args2, rfl⟩ := dispatchInto_shape cf cargs arg newLast hd
          rw [← hok]
          rfl
    | cons y rest =>
      simp only [dispatchLastAux] at hok
      cases hd : dispatchLastAux (y :: rest) arg with
      | error e => rw [hd] at hok; simp at hok
      | ok rest2 =>
        rw [hd] at hok
        simp only [Except.ok.injEq] at hok
        rw [← hok, List.map_cons, List.map_cons, ih arg rest2 hd]

/-- A successful `Routine.dispatch_argument` keeps the routine identity,
appends the argument when it sits at depth 0 and otherwise keeps the flat
fields of the immediate arguments (the row is delegated into the last
argument). -/
theorem routine_dispatch_shape (r : Routine) (arg : Argument) (r2 : Routine)
    (hok : r.dispatch_argument arg = .ok r2) :
    r2.object_id = r.object_id ∧ r2.subprogram_id = r.subprogram_id ∧
    (arg.data_level = 0 → r2.arguments = r.arguments ++ [arg]) ∧
    (arg.data_level ≠ 0 →
      r2.arguments.map Argument.fields = r.arguments.map Argument.fields) := by
  unfold Routine.dispatch_argument at hok
  by_cases h0 : arg.data_level = 0
  · rw [if_pos h0] at hok
    simp only [Except.ok.injEq] at hok
    subst hok
    exact ⟨rfl, rfl, fun _ => rfl, fun hn => absurd h0 hn⟩
  · rw [if_neg h0] at hok
    cases haux : dispatchLastAux r.arguments arg with
    | error e => rw [haux] at hok; simp at hok
    | ok args2 =>
      rw [haux] at hok
      simp only [Except.ok.injEq] at hok
      subst hok
      exact ⟨rfl, rfl, fun hz => absurd hz h0,
        fun _ => dispatchLastAux_fields r.arguments arg args2 haux⟩

/-- The package-level placement yields a schema with at least one package,
all of them carrying at least one routine (given the incoming schema
already satisfied the latter). -/
theorem schemaAppend_populated (s : Schema) (row : Intro.IntrospectionRow)
    (rt : Routine)
    (h : s.packages.all (fun p => !p.routines.isEmpty) = true) :
    (!(schemaAppend s row rt).packages.isEmpty &&
      (schemaAppend s row rt).packages.all fun p => !p.routines.isEmpty) = true := by
  unfold schemaAppend
  cases hp : s.packages.getLast? with
  | none => simp
  | some p =>
    simp only []
    by_cases hn : row.package = p.name
    · rw [if_pos hn]
      refine and_true_split.mpr ⟨by simp, ?_⟩
      rw [List.all_eq_true]
      intro p2 hp2
      rcases List.mem_append.mp hp2 with h2 | h2
      · exact List.all_eq_true.mp (all_dropLast _ _ h) p2 h2
      · rw [List.mem_singleton.mp h2]
        simp
    · rw [if_neg hn]
      refine and_true_split.mpr ⟨by simp, ?_⟩
      rw [List.all_eq_true]
      intro p2 hp2
      rcases List.mem_append.mp hp2 with h2 | h2
      · exact List.all_eq_true.mp h p2 h2
      · rw [List.mem_singleton.mp h2]
        simp

/-- Opening a routine keeps the tree populated. -/
theorem nonDegenerate_dispatch_routine (db : Database)
    (row : Intro.IntrospectionRow) (rt : Routine)
    (hnd : nonDegenerate db = true) :
    nonDegenerate (db.dispatch_routine row rt) = true := by
  unfold Database.dispatch_routine
  unfold nonDegenerate at hnd
  cases hs : db.schemes.getLast? with
  | none =>
    simp only []
    unfold nonDegenerate
    rw [List.all_eq_true]
    intro s2 hs2
    rw [List.mem_singleton.mp hs2]
    exact schemaAppend_populated ⟨row.schema, []⟩ row rt (by simp)
  | some s =>
    simp only []
    have hsm : s ∈ db.schemes := mem_of_getLast?_eq hs
    have hsall := List.all_eq_true.mp hnd
    by_cases hn : row.schema = s.name
    · rw [if_pos hn]
      unfold nonDegenerate
      rw [List.all_eq_true]
      intro s2 hs2
      rcases List.mem_append.mp hs2 with h2 | h2
      · exact hsall s2 (List.dropLast_subset _ h2)
      · rw [List.mem_singleton.mp h2]
        exact schemaAppend_populated s row rt
          (and_true_split.mp (hsall s hsm)).2
    · rw [if_neg hn]
      unfold nonDegenerate
      rw [List.all_eq_true]
      intro s2 hs2
      rcases List.mem_append.mp hs2 with h2 | h2
      · exact hsall s2 h2
      · rw [List.mem_singleton.mp h2]
        exact schemaAppend_populated ⟨row.schema, []⟩ row rt (by simp)

/-- A database with a routine node has a schema node. -/
theorem schemes_ne_nil_of_routinesOf {db : Database}
    (h : db.routinesOf ≠ []) : db.schemes ≠ [] := by
  intro hnil
  apply h
  unfold Database.routinesOf
  rw [hnil]
  rfl

/-- Decomposition of the flattened routine list around the last package of
the last schema, shared by the source tree and the tree in which that
package got a new routine list. -/
theorem routinesOf_replace_last (db : Database) (s : Schema) (p : Package)
    (hs : db.schemes.getLast? = some s) (hp : s.packages.getLast? = some p)
    (rs2 : List Routine) :
    db.routinesOf =
      ((db.schemes.dropLast.map Schema.routinesOf).flatten ++
        (s.packages.dropLast.map Package.routines).flatten) ++ p.routines ∧
    ({ db with schemes := db.schemes.dropLast ++
        [{ s with packages := s.packages.dropLast ++
            [{ p with routines := rs2 }] }] } : Database).routinesOf =
      ((db.schemes.dropLast.map Schema.routinesOf).flatten ++
        (s.packages.dropLast.map Package.routines).flatten) ++ rs2 := by
  have hds := List.dropLast_append_getLast? _ (Option.mem_def.mpr hs)
  have hdp := List.dropLast_append_getLast? _ (Option.mem_def.mpr hp)
  constructor
  · rw [Database.routinesOf]
    conv_lhs => rw [← hds]
    rw [List.map_append, List.flatten_append]
    rw [show ([s].map Schema.routinesOf).flatten = s.routinesOf by simp]
    rw [Schema.routinesOf]
    conv_lhs => rw [← hdp]
    rw [List.map_append, List.flatten_append]
    rw [show ([p].map Package.routines).flatten = p.routines by simp]
    rw [List.append_assoc]
  · rw [Database.routinesOf]
    rw [List.map_append, List.flatten_append]
    rw [show ([{ s with packages := s.packages.dropLast ++
          [{ p with routines := rs2 }] }].map Schema.routinesOf).flatten =
        ((s.packages.dropLast ++ [{ p with routines := rs2 }]).map
          Package.routines).flatten by simp [Schema.routinesOf]]
    rw [List.map_append, List.flatten_append]
    rw [show ([{ p with routines := rs2 }].map Package.routines).flatten = rs2
      by simp]
    rw [List.append_assoc]

/-- When the tree is populated, dispatching into the current routine acts
on the last routine of the flattened routine list: on success exactly that
routine is replaced and the tree stays populated. -/
theorem dispatchIntoLastRoutine_last (db db2 : Database) (arg : Argument)
    (hnd : nonDegenerate db = true) (hne : db.schemes ≠ [])
    (hok : db.dispatchIntoLastRoutine arg = .ok db2) :
    ∃ rl rl2, db.routinesOf.getLast? = some rl ∧
      rl.dispatch_argument arg = .ok rl2 ∧
      db2.routinesOf = db.routinesOf.dropLast ++ [rl2] ∧
      nonDegenerate db2 = true := by
  unfold Database.dispatchIntoLastRoutine at hok
  cases hs : db.schemes.getLast? with
  | none => exact absurd (List.getLast?_eq_none_iff.mp hs) hne
  | some s =>
    rw [hs] at hok
    simp only [] at hok
    have hsm : s ∈ db.schemes := mem_of_getLast?_eq hs
    have hnds2 := and_true_split.mp (List.all_eq_true.mp hnd s hsm)
    cases hp : s.packages.getLast? with
    | none =>
      exfalso
      have hnil : s.packages = [] := List.getLast?_eq_none_iff.mp hp
      rw [hnil] at hnds2
      simpa using hnds2.1
    | some p =>
      rw [hp] at hok
      simp only [] at hok
      have hpm : p ∈ s.packages := mem_of_getLast?_eq hp
      have hndp := List.all_eq_true.mp hnds2.2 p hpm
      cases hr : p.routines.getLast? with
      | none =>
        exfalso
        have hnil : p.routines = [] := List.getLast?_eq_none_iff.mp hr
        rw [hnil] at hndp
        simpa using hndp
      | some rl =>
        rw [hr] at hok
        simp only [] at hok
        cases hd : rl.dispatch_argument arg with
        | error e => rw [hd] at hok; simp at hok
        | ok rl2 =>
          rw [hd] at hok
          simp only [Except.ok.injEq] at hok
          subst hok
          have hdr := List.dropLast_append_getLast? _ (Option.mem_def.mpr hr)
          obtain ⟨hro, hro2⟩ := routinesOf_replace_last db s p hs hp
            (p.routines.dropLast ++ [rl2])
          have hrne : p.routines ≠ [] := by
            intro hnil; rw [hnil] at hr; simp at hr
          refine ⟨rl, rl2, ?_, hd, ?_, ?_⟩
          · rw [hro]
            conv_lhs => rw [← hdr]
            rw [← List.append_assoc, List.getLast?_concat]
          · rw [hro2, hro, List.dropLast_append_of_ne_nil _ hrne]
            simp [List.append_assoc]
          · unfold nonDegenerate
            rw [List.all_eq_true]
            intro s2 hs2
            rcases List.mem_append.mp hs2 with h2 | h2
            · exact List.all_eq_true.mp hnd s2 (List.dropLast_subset _ h2)
            · rw [List.mem_singleton.mp h2]
              refine and_true_split.mpr ⟨by simp, ?_⟩
              rw [List.all_eq_true]
              intro p2 hp2
              rcases List.mem_append.mp hp2 with h3 | h3
              · exact List.all_eq_true.mp (all_dropLast _ _ hnds2.2) p2 h3
              · rw [List.mem_singleton.mp h3]
                simp

/-- The flat fields of the argument made from a row are the fields taken
from that row. -/
theorem rowArgument_fields (row : Intro.IntrospectionRow) :
    (if row.data_type ∉ Intro.COMPLEX_TYPES then
      Argument.simple (ArgFields.from_row row)
    else Argument.complex (ArgFields.from_row row) []).fields =
      ArgFields.from_row row := by
  split <;> rfl

/-- The same, with the membership test the way `simp` normalizes it. -/
theorem rowArgument_fields_mem (row : Intro.IntrospectionRow) :
    (if row.data_type ∈ Intro.COMPLEX_TYPES then
      Argument.complex (ArgFields.from_row row) []
    else Argument.simple (ArgFields.from_row row)).fields =
      ArgFields.from_row row := by
  split <;> rfl

/-- Main run lemma of the row loop: with the sentinels naming the previous
row, the tree populated and its last routine matching the open sentinel
group, the rest of the loop extends the routine list by exactly one
matched routine per emitted sentinel group. -/
theorem processRows_match :
    ∀ (rest : List Intro.IntrospectionRow) (st : BuildState)
      (prev : Intro.IntrospectionRow) (cur : List Intro.IntrospectionRow)
      (rs : List Routine) (rl : Routine) (st2 : BuildState),
      processRows st rest = .ok st2 →
      st.oid = some prev.object_id → st.sid = some prev.subprogram_id →
      nonDegenerate st.database = true →
      st.database.routinesOf = rs ++ [rl] →
      routineMatchesGroup rl cur →
      cur.getLast? = some prev →
      pairOf prev = (rl.object_id, rl.subprogram_id) →
      ∃ tail, st2.database.routinesOf = rs ++ tail ∧
        List.Forall₂ routineMatchesGroup tail (pairGroupsAux prev cur rest) := by
  intro rest
  induction rest with
  | nil =>
    intro st prev cur rs rl st2 hok hoid hsid hnd hro hmatch hlast hpair
    simp only [processRows, Except.ok.injEq] at hok
    subst hok
    exact ⟨[rl], hro, by
      simp only [pairGroupsAux]
      exact List.Forall₂.cons hmatch List.Forall₂.nil⟩
  | cons r rest2 ih =>
    intro st prev cur rs rl st2 hok hoid hsid hnd hro hmatch hlast hpair
    cases h1 : processRow st r with
    | error e => simp [processRows, h1] at hok
    | ok st1 =>
      simp only [processRows, h1] at hok
      unfold processRow at h1
      simp only [] at h1
      by_cases hpq : pairOf prev = pairOf r
      · -- same pair: the sentinels match, dispatch into the current routine
        have hpq2 : prev.object_id = r.object_id ∧
            prev.subprogram_id = r.subprogram_id := by
          simpa [pairOf, Prod.mk.injEq] using hpq
        have hsentF : ¬(st.oid ≠ some r.object_id ∨
            st.sid ≠ some r.subprogram_id) := by
          rw [hoid, hsid, hpq2.1, hpq2.2]
          simp
        rw [if_neg hsentF] at h1
        cases hd : st.database.dispatchIntoLastRoutine
            (if r.data_type ∉ Intro.COMPLEX_TYPES then
              Argument.simple (ArgFields.from_row r)
            else Argument.complex (ArgFields.from_row r) []) with
        | error e => rw [hd] at h1; simp at h1
        | ok db1 =>
          rw [hd] at h1
          simp only [Except.ok.injEq] at h1
          subst h1
          have hne : st.database.schemes ≠ [] :=
            schemes_ne_nil_of_routinesOf (by rw [hro]; simp)
          obtain ⟨ra, ra2, hlastr, hdisp, hro1, hnd1⟩ :=
            dispatchIntoLastRoutine_last st.database db1 _ hnd hne hd
          have hra : ra = rl := by
            rw [hro, List.getLast?_concat] at hlastr
            exact (Option.some_inj.mp hlastr).symm
          subst hra
          have hro1b : db1.routinesOf = rs ++ [ra2] := by
            rw [hro1, hro, List.dropLast_concat]
          obtain ⟨hid1, hid2, happ, hkeep⟩ := routine_dispatch_shape _ _ _ hdisp
          have hcurne : cur ≠ [] := by
            intro hnil; rw [hnil] at hlast; simp at hlast
          have hhead2 : (cur ++ [r]).head?.map pairOf =
              some (ra2.object_id, ra2.subprogram_id) := by
            rw [List.head?_append_of_ne_nil cur hcurne, hid1, hid2]
            exact hmatch.1
          have hmatch2 : routineMatchesGroup ra2 (cur ++ [r]) := by
            refine ⟨hhead2, ?_⟩
            rw [List.filter_append]
            by_cases hl : r.data_level = 0
            · rw [happ (by rw [rowArgument_level]; exact hl)]
              rw [List.map_append, hmatch.2, List.map_append]
              congr 1
              simp [rowArgument_fields, rowArgument_fields_mem, hl]
            · rw [hkeep (by rw [rowArgument_level]; exact hl)]
              rw [hmatch.2]
              have hfe : ([r].filter fun row => row.data_level == 0) = [] := by
                simp [hl]
              rw [hfe, List.append_nil]
          have hpair2 : pairOf r = (ra2.object_id, ra2.subprogram_id) := by
            rw [hid1, hid2, ← hpq]
            exact hpair
          obtain ⟨tail, htail1, htail2⟩ := ih _ r (cur ++ [r]) rs ra2 st2 hok
            rfl rfl hnd1 hro1b hmatch2 (List.getLast?_concat cur) hpair2
          refine ⟨tail, htail1, ?_⟩
          simp only [pairGroupsAux, if_pos hpq]
          exact htail2
      · -- new pair: the sentinels differ, a fresh routine is opened
        have hsentT : st.oid ≠ some r.object_id ∨
            st.sid ≠ some r.subprogram_id := by
          rw [hoid, hsid]
          by_cases h1b : prev.object_id = r.object_id
          · right
            intro hcon
            apply hpq
            have h2b : prev.subprogram_id = r.subprogram_id := by
              simpa using hcon
            simp [pairOf, h1b, h2b]
          · left
            intro hcon
            exact h1b (by simpa using hcon)
        rw [if_pos hsentT] at h1
        cases hd : (st.database.dispatch_routine r
            (Routine.from_row r)).dispatchIntoLastRoutine
            (if r.data_type ∉ Intro.COMPLEX_TYPES then
              Argument.simple (ArgFields.from_row r)
            else Argument.complex (ArgFields.from_row r) []) with
        | error e => rw [hd] at h1; simp at h1
        | ok db1 =>
          rw [hd] at h1
          simp only [Except.ok.injEq] at h1
          subst h1
          have hmid : (st.database.dispatch_routine r
              (Routine.from_row r)).routinesOf =
              (rs ++ [rl]) ++ [Routine.from_row r] := by
            rw [routinesOf_dispatch_routine, hro]
          have hndmid := nonDegenerate_dispatch_routine st.database r
            (Routine.from_row r) hnd
          have hnemid : (st.database.dispatch_routine r
              (Routine.from_row r)).schemes ≠ [] :=
            schemes_ne_nil_of_routinesOf (by rw [hmid]; simp)
          obtain ⟨ra, ra2, hlastr, hdisp, hro1, hnd1⟩ :=
            dispatchIntoLastRoutine_last _ db1 _ hndmid hnemid hd
          have hra : ra = Routine.from_row r := by
            rw [hmid, List.getLast?_concat] at hlastr
            exact (Option.some_inj.mp hlastr).symm
          subst hra
          have hro1b : db1.routinesOf = (rs ++ [rl]) ++ [ra2] := by
            rw [hro1, hmid, List.dropLast_concat]
          obtain ⟨hid1, hid2, happ, hkeep⟩ := routine_dispatch_shape _ _ _ hdisp
          have hmatch2 : routineMatchesGroup ra2 [r] := by
            constructor
            · show some (pairOf r) = some (ra2.object_id, ra2.subprogram_id)
              rw [hid1, hid2]
              rfl
            · by_cases hl : r.data_level = 0
              · rw [happ (by rw [rowArgument_level]; exact hl)]
                simp [Routine.from_row, rowArgument_fields, rowArgument_fields_mem, hl]
              · rw [hkeep (by rw [rowArgument_level]; exact hl)]
                simp [Routine.from_row, hl]
          obtain ⟨tail, htail1, htail2⟩ := ih _ r [r] (rs ++ [rl]) ra2 st2 hok
            rfl rfl hnd1 hro1b hmatch2 rfl (by rw [hid1, hid2]; rfl)
          refine ⟨rl :: tail, ?_, ?_⟩
          · rw [htail1]
            simp [List.append_assoc]
          · simp only [pairGroupsAux, if_neg hpq]
            exact List.Forall₂.cons hmatch htail2

/-- The single-schema pass of `Abstract.intermediate_representation`
produces routines in pointwise correspondence with the sentinel groups of
the batch. -/
theorem buildDatabase_match (dbname sname npkg : String)
    (rows : List Intro.IntrospectionRow) (db : Database)
    (hok : buildDatabase ⟨dbname, [⟨sname, npkg, rows⟩]⟩ = .ok db) :
    List.Forall₂ routineMatchesGroup db.routinesOf (pairGroups rows) := by
  unfold buildDatabase at hok
  cases h1 : processSchemas ⟨Database.new dbname, none, none⟩
      [⟨sname, npkg, rows⟩] with
  | error e => rw [h1] at hok; simp at hok
  | ok st =>
    rw [h1] at hok
    simp only [Except.ok.injEq] at hok
    subst hok
    simp only [processSchemas] at h1
    cases h2 : processRows ⟨Database.new dbname, none, none⟩ rows with
    | error e => rw [h2] at h1; simp at h1
    | ok st0 =>
      rw [h2] at h1
      simp only [processSchemas, Except.ok.injEq] at h1
      subst h1
      cases rows with
      | nil =>
        simp only [processRows, Except.ok.injEq] at h2
        subst h2
        exact List.Forall₂.nil
      | cons r0 rest =>
        cases h3 : processRow ⟨Database.new dbname, none, none⟩ r0 with
        | error e => simp [processRows, h3] at h2
        | ok st1 =>
          simp only [processRows, h3] at h2
          unfold processRow at h3
          simp only [] at h3
          rw [if_pos (Or.inl (by simp : (none : Option Int) ≠
            some r0.object_id))] at h3
          cases hd : ((Database.new dbname).dispatch_routine r0
              (Routine.from_row r0)).dispatchIntoLastRoutine
              (if r0.data_type ∉ Intro.COMPLEX_TYPES then
                Argument.simple (ArgFields.from_row r0)
              else Argument.complex (ArgFields.from_row r0) []) with
          | error e => rw [hd] at h3; simp at h3
          | ok db1 =>
            rw [hd] at h3
            simp only [Except.ok.injEq] at h3
            subst h3
            have hmid : ((Database.new dbname).dispatch_routine r0
                (Routine.from_row r0)).routinesOf =
                [] ++ [Routine.from_row r0] := by
              rw [routinesOf_dispatch_routine]
              rfl
            have hndmid := nonDegenerate_dispatch_routine (Database.new dbname)
              r0 (Routine.from_row r0) (by rfl)
            have hnemid : ((Database.new dbname).dispatch_routine r0
                (Routine.from_row r0)).schemes ≠ [] :=
              schemes_ne_nil_of_routinesOf (by rw [hmid]; simp)
            obtain ⟨ra, ra2, hlastr, hdisp, hro1, hnd1⟩ :=
              dispatchIntoLastRoutine_last _ db1 _ hndmid hnemid hd
            have hra : ra = Routine.from_row r0 := by
              rw [hmid, List.getLast?_concat] at hlastr
              exact (Option.some_inj.mp hlastr).symm
            subst hra
            have hro1b : db1.routinesOf = [] ++ [ra2] := by
              rw [hro1, hmid, List.dropLast_concat]
            obtain ⟨hid1, hid2, happ, hkeep⟩ := routine_dispatch_shape _ _ _ hdisp
            have hmatch2 : routineMatchesGroup ra2 [r0] := by
              constructor
              · show some (pairOf r0) = some (ra2.object_id, ra2.subprogram_id)
                rw [hid1, hid2]
                rfl
              · by_cases hl : r0.data_level = 0
                · rw [happ (by rw [rowArgument_level]; exact hl)]
                  simp [Routine.from_row, rowArgument_fields, rowArgument_fields_mem, hl]
                · rw [hkeep (by rw [rowArgument_level]; exact hl)]
                  simp [Routine.from_row, hl]
            obtain ⟨tail, htail1, htail2⟩ := processRows_match rest _ r0 [r0]
              [] ra2 _ h2 rfl rfl hnd1 hro1b hmatch2 rfl
              (by rw [hid1, hid2]; rfl)
            rw [htail1]
            simp only [List.nil_append, pairGroups]
            exact htail2

end IR

/-- C1 (amended): for a single-schema batch strictly ordered by the
introspection ORDER BY key whose `(object_id, subprogram_id)` pairs
determine the package column (true of the source queries, where the
package names the object owning the ids), a successful reconstruction
produces exactly one `Routine` node per occurring pair, and the immediate
arguments of every routine are exactly the fields of its depth-0 rows in
row order. As literally stated the claim is false: the ordering alone
does not make equal-pair rows contiguous, because the key orders by
package first (see the counterexample). -/
theorem claim_C1_one_routine_per_pair (dbname sname npkg : String)
    (rows : List Intro.IntrospectionRow) (db : IR.Database)
    (hsort : IR.strictlyOrdered rows)
    (hpkg : IR.packageDetermined rows)
    (hok : IR.buildDatabase ⟨dbname, [⟨sname, npkg, rows⟩]⟩ = .ok db) :
    (∀ row ∈ rows, IR.countPair db row.object_id row.subprogram_id = 1) ∧
    (∀ r ∈ db.routinesOf,
      r.arguments.map IR.Argument.fields =
        (rows.filter fun row =>
          (row.object_id == r.object_id && row.subprogram_id == r.subprogram_id)
            && row.data_level == 0).map IR.ArgFields.from_row) := by
  have hf2 := IR.buildDatabase_match dbname sname npkg rows db hok
  have hcoh := IR.pairGroups_coherent rows
  have hnd := IR.pairGroups_heads_nodup rows hsort hpkg
  have hflat := IR.pairGroups_flatten rows
  constructor
  · intro row hrow
    have hrow2 : row ∈ (IR.pairGroups rows).flatten := by
      rw [hflat]; exact hrow
    obtain ⟨g, hg, hrg⟩ := List.mem_flatten.mp hrow2
    have hco := hcoh g hg row hrg
    have hmem : some (IR.pairOf row) ∈
        (IR.pairGroups rows).map IR.headPairOf := by
      rw [← hco]
      exact List.mem_map_of_mem _ hg
    unfold IR.countPair
    rw [IR.length_filter_forall2 hf2 row.object_id row.subprogram_id]
    exact IR.countP_heads_eq_one hsort hpkg hmem
  · intro r hr
    obtain ⟨g, hg, hmg⟩ := IR.forall2_mem_left hf2 r hr
    have hq : IR.headPairOf g = some (r.object_id, r.subprogram_id) := hmg.1
    have hfil := IR.filter_flatten_groups (IR.pairGroups rows)
      (r.object_id, r.subprogram_id) g (fun row => row.data_level == 0)
      hcoh hnd hg hq
    rw [hflat] at hfil
    have hconv : (rows.filter fun row =>
        (row.object_id == r.object_id && row.subprogram_id == r.subprogram_id)
          && row.data_level == 0) =
        rows.filter (fun row =>
          IR.pairOf row == (r.object_id, r.subprogram_id) &&
            row.data_level == 0) := rfl
    rw [hconv, hfil]
    exact hmg.2

/-- Witness for C1 (amended): a strictly ordered two-routine batch in one
package; both hypotheses evaluate and each of the two routines gets
exactly one node with its two (respectively one) depth-0 arguments. -/
theorem claim_C1_witness :
    (∀ row ∈ Intro.exampleRowsOrdered,
      IR.countPair (IR.orEmptyDb (IR.buildDatabase
        ⟨"DB", [⟨"bills", "x", Intro.exampleRowsOrdered⟩]⟩))
        row.object_id row.subprogram_id = 1) ∧
    (∀ r ∈ (IR.orEmptyDb (IR.buildDatabase
        ⟨"DB", [⟨"bills", "x", Intro.exampleRowsOrdered⟩]⟩)).routinesOf,
      r.arguments.map IR.Argument.fields =
        (Intro.exampleRowsOrdered.filter fun row =>
          (row.object_id == r.object_id && row.subprogram_id == r.subprogram_id)
            && row.data_level == 0).map IR.ArgFields.from_row) :=
  claim_C1_one_routine_per_pair "DB" "bills" "x" Intro.exampleRowsOrdered
    (IR.orEmptyDb (IR.buildDatabase
      ⟨"DB", [⟨"bills", "x", Intro.exampleRowsOrdered⟩]⟩))
    (by decide) (by decide) (by rfl)

/-- Counterexample to C1 as stated: a batch strictly ordered by
`(package, object_id, subprogram_id, sequence, position)` in which the
pair `(1, 1)` occurs under two packages; the reconstruction succeeds and
produces two `Routine` nodes for that single pair. -/
theorem claim_C1_counterexample :
    IR.strictlyOrdered Intro.exampleRowsSplitPair ∧
    (IR.buildDatabase
      ⟨"DB", [⟨"bills", "np", Intro.exampleRowsSplitPair⟩]⟩).isOk = true ∧
    IR.countPair (IR.orEmptyDb (IR.buildDatabase
      ⟨"DB", [⟨"bills", "np", Intro.exampleRowsSplitPair⟩]⟩)) 1 1 = 2 := by
  refine ⟨by decide, by rfl, by rfl⟩

end Dbsg
